import Mathlib

set_option maxRecDepth 100000

/-!
# Verification of the hyli wallet contract (`contracts/wallet`)

Shallow embedding of the wallet state machine, the host executor
(`client/tx_executor_handler.rs`) and the guest executor (`lib.rs`,
`WalletZkView::execute`), together with a model of the sparse Merkle tree
store.

Conventions of the embedding:
* machine bytes (`u8`) and machine integers (`u128`, timestamps, nonces) are
  `Nat`; no arithmetic in the sources can overflow `u128` (the only
  arithmetic is the 13-digit ASCII nonce fold, bounded by `10^13`);
* SHA-256 / Keccak-256 digests are modelled by a free algebra `Hash`
  (constructor injectivity models collision resistance, the standard
  assumption stated in the specification: "collisions are assumed
  negligible");
* borsh (de)serialization is modelled by tagging blob payloads with what
  they canonically encode (borsh is a canonical injective encoding);
* fallible Rust functions return `Except String`; functions taking
  `&mut self` are modelled by explicitly returning the (possibly partially
  mutated) receiver together with the `Result`, since Rust mutations
  performed before an early `return Err` persist;
* external cryptographic primitives (secp256k1 parsing, Keccak, SHA-256 on
  arbitrary byte strings) are collected in a `Crypto` parameter threaded
  through the definitions, so that every definition stays executable.
-/

/-! ## Bytes, hex encoding, bit keys -/

abbrev Bytes := List Nat

/-- UTF-8 bytes of a string (identities and messages in the wallet are
ASCII, where UTF-8 is the identity on code points). -/
def strBytes (s : String) : Bytes := s.data.map Char.toNat

/-- One hex digit character for a nibble. -/
def hexDigit (n : Nat) : Char :=
  if n < 10 then Char.ofNat (48 + n) else Char.ofNat (87 + n)

/-- `hex::encode`: lower-case hex encoding of a byte string. -/
def hexEncode (bs : Bytes) : String :=
  String.mk (bs.foldr (fun b acc => hexDigit (b / 16 % 16) :: hexDigit (b % 16) :: acc) [])

/-- Little-endian bits of a natural number, fixed width `w`. -/
def natBits (w n : Nat) : List Bool := (List.range w).map n.testBit

/-- SMT keys are paths in the binary tree: 256 bits in the real contract. -/
abbrev BitKey := List Bool

/-! ## The hash algebra

`Hash` models 32-byte SHA-256 digests (`H256` in the source).  Distinct
constructors and constructor injectivity model collision resistance of
SHA-256; `Hash.bytes` injects literal 32-byte values (`H256::from`). -/

inductive Hash : Type where
  /-- A literal byte value, e.g. `H256::from(smt_root)`. -/
  | bytes (bs : Bytes)
  /-- `SHA256(left || right)` for two non-zero subtree roots (SMT node hash). -/
  | node (l r : Hash)
  /-- `SHA256(borsh_serialize(AccountInfo))` for a non-`Uninitialized` record
  (`AccountInfo::to_h256`, smt.rs). -/
  | leafV (identity : String) (authTag : Nat) (authStr : String) (authBytes : Bytes)
      (sessionKeys : List (String × Nat × Option (List String) × Option String))
      (nonce : Nat)
  deriving DecidableEq, Repr

/-- `H256::zero()`: the all-zero 32-byte value. -/
def Hash.zero : Hash := Hash.bytes (List.replicate 32 0)

/-- `StateCommitment` (a byte vector in the source).  `Hash.stateCommit`
models `SHA256(root || invite_code_pubkey)` computed by
`get_state_commitment` (lib.rs); `raw` models arbitrary byte vectors
(e.g. a tampered commitment). -/
inductive Commitment : Type where
  | stateCommit (root : Hash) (pubkey : Bytes)
  | raw (bs : Bytes)
  deriving DecidableEq, Repr

/-! ## Data model (lib.rs) -/

/-- `SessionKey` (lib.rs).  `ContractName` and `LaneId` are modelled as
strings; `TimestampMs` as `Nat`. -/
structure SessionKey where
  public_key : String
  expiration_date : Nat
  whitelist : Option (List String)
  lane_id : Option String
  deriving DecidableEq, Repr

/-- `AuthMethod` (lib.rs). -/
inductive AuthMethod : Type where
  | Password (hash : String)
  | Jwt (hash : Bytes)
  | Ethereum (address : String)
  | Uninitialized
  | HyliApp (address : String)
  deriving DecidableEq, Repr

/-- `AccountInfo` (lib.rs): the SMT leaf value. -/
structure AccountInfo where
  identity : String
  auth_method : AuthMethod
  session_keys : List SessionKey
  nonce : Nat
  deriving DecidableEq, Repr

/-- `AccountInfo::default()` / `Value::zero()` (smt.rs). -/
def AccountInfo.default0 : AccountInfo :=
  { identity := "", auth_method := AuthMethod.Uninitialized, session_keys := [], nonce := 0 }

/-- `WalletAction` (lib.rs). -/
inductive WalletAction : Type where
  | RegisterIdentity (account : String) (nonce : Nat) (salt : String)
      (auth_method : AuthMethod) (invite_code : String)
  | VerifyIdentity (account : String) (nonce : Nat)
  | AddSessionKey (account : String) (key : String) (expiration_date : Nat)
      (whitelist : Option (List String)) (lane_id : Option String) (nonce : Nat)
  | RemoveSessionKey (account : String) (key : String) (nonce : Nat)
  | UseSessionKey (account : String) (nonce : Nat)
  | UpdateInviteCodePublicKey (invite_code_public_key : Bytes) (smt_root : Bytes)
  deriving DecidableEq, Repr

/-- `Secp256k1Blob` (hyli sdk, verifiers).  Modelled from the spec:
carries `(identity, data: 32-byte digest, public_key: 33 bytes,
signature: 64 bytes)`. -/
structure Secp256k1Blob where
  identity : String
  data : Bytes
  public_key : Bytes
  signature : Bytes
  deriving DecidableEq, Repr

/-- The payload of a blob.  A real payload is a byte string; we tag the two
borsh-encoded shapes the wallet decodes (`WalletAction`,
`Secp256k1Blob`) — borsh is canonical and injective, so a byte string
either is the encoding of exactly one such value or of none. -/
inductive BlobData : Type where
  | action (a : WalletAction)
  | secp (b : Secp256k1Blob)
  | rawB (bs : Bytes)
  deriving DecidableEq, Repr

/-- `WalletAction::from_blob_data` (lib.rs): borsh decoding of an action. -/
def decodeAction : BlobData → Option WalletAction
  | BlobData.action a => some a
  | _ => none

/-- `borsh::from_slice::<Secp256k1Blob>` on a blob payload. -/
def decodeSecp : BlobData → Option Secp256k1Blob
  | BlobData.secp b => some b
  | _ => none

/-- Structural encoding of a session key, for the leaf hash. -/
def SessionKey.enc (sk : SessionKey) : String × Nat × Option (List String) × Option String :=
  (sk.public_key, sk.expiration_date, sk.whitelist, sk.lane_id)

/-- Components of an auth method, for the leaf hash. -/
def AuthMethod.encTag : AuthMethod → Nat
  | AuthMethod.Password _ => 0
  | AuthMethod.Jwt _ => 1
  | AuthMethod.Ethereum _ => 2
  | AuthMethod.Uninitialized => 3
  | AuthMethod.HyliApp _ => 4

def AuthMethod.encStr : AuthMethod → String
  | AuthMethod.Password h => h
  | AuthMethod.Ethereum a => a
  | AuthMethod.HyliApp a => a
  | _ => ""

def AuthMethod.encBytes : AuthMethod → Bytes
  | AuthMethod.Jwt h => h
  | _ => []

/-- `AccountInfo::to_h256` (smt.rs): the zero digest for an
`Uninitialized` record, otherwise `SHA256(borsh_serialize(self))`
(modelled by the injective `Hash.leafV` constructor applied to the
record's components). -/
def AccountInfo.to_h256 (a : AccountInfo) : Hash :=
  if a.auth_method = AuthMethod.Uninitialized then Hash.zero
  else Hash.leafV a.identity a.auth_method.encTag a.auth_method.encStr a.auth_method.encBytes
    (a.session_keys.map SessionKey.enc) a.nonce

/-- `AccountInfo::compute_key` (smt.rs): `SHA256(identity)` as a 256-bit
tree key.  Modelled as a fixed-width (injective on identities of at most
12 characters) bit encoding of the string. -/
def AccountInfo.compute_key (identity : String) : BitKey :=
  ((identity.data.map (fun c => natBits 21 c.toNat)).flatten
    ++ List.replicate 256 false).take 256

/-! ## Call data (hyli sdk types, as described in spec section 6) -/

/-- A `(contract_name, data)` blob. -/
structure Blob where
  contract_name : String
  data : BlobData
  deriving DecidableEq, Repr

/-- `TxContext`: the consensus-provided context (only the fields the
wallet reads). -/
structure TxContext where
  lane_id : String
  timestamp : Nat
  deriving DecidableEq, Repr

/-- `Calldata` (hyli sdk): the full per-blob execution context. -/
structure Calldata where
  identity : String
  tx_hash : Bytes
  blobs : List (Nat × Blob)
  tx_blob_count : Nat
  index : Nat
  tx_ctx : Option TxContext
  private_input : Bytes
  deriving DecidableEq, Repr

/-- `HyleOutput` (hyli sdk), restricted to the fields the claims are
about. -/
structure HyleOutput where
  initial_state_commitment : Commitment
  next_state_commitment : Commitment
  program_outputs : Bytes
  success : Bool
  deriving DecidableEq, Repr

/-- Result of a guest (`ZkContract::execute`) run: a normal `RunResult`
(`ok`/`err`), or a zk-VM `panic!` (terminal). -/
inductive GuestOut : Type where
  | ok (output : Bytes)
  | err (msg : String)
  | panic (msg : String)
  deriving DecidableEq, Repr

/-- External cryptographic primitives used by the wallet (secp256k1 crate,
Keccak-256, SHA-256 over arbitrary byte strings).  Modelled from the spec:
these live outside the repository; every wallet definition is
parametrized by them and both executors receive the same instance. -/
structure Crypto where
  /-- `Sha256::digest` on an arbitrary byte string. -/
  sha256 : Bytes → Bytes
  /-- `Keccak256::digest`. -/
  keccak : Bytes → Bytes
  /-- `secp256k1::PublicKey::from_slice` (None models a parse error). -/
  parsePublicKey : Bytes → Option Bytes
  /-- `PublicKey::serialize_uncompressed` (65 bytes, leading 0x04). -/
  serUncompressed : Bytes → Bytes
  /-- `PublicKey::serialize` (33 bytes compressed). -/
  serCompressed : Bytes → Bytes
  /-- Validity of the secp256k1 signature carried by a `Secp256k1Blob`
  (attested by the native verifier on-chain). -/
  sigOk : Secp256k1Blob → Bool

/-! ## Sparse Merkle tree model

Modelled from the spec (section 4.3): the `sparse_merkle_tree` crate is
external to the repository.  A binary SMT over fixed-width bit keys; the
empty subtree hashes to the zero digest, so a leaf whose value hashes to
zero is absent.  The store is the list of `(key, AccountInfo)` leaves; a
Merkle proof for a key is the list of sibling subtree roots along its
path, top-down — the compact witness of section 4.3, canonical by
construction. -/

abbrev LeafList := List (BitKey × Hash)

/-- The sub-multiset of leaves in the `b` subtree, with the first key bit
consumed. -/
def branchLeaves (b : Bool) (ls : LeafList) : LeafList :=
  ls.filterMap (fun p =>
    match p.1 with
    | [] => none
    | bit :: t => if bit = b then some (t, p.2) else none)

/-- Parent hash of two subtree roots; two empty subtrees stay empty. -/
def mergeH (l r : Hash) : Hash :=
  if l = Hash.zero ∧ r = Hash.zero then Hash.zero else Hash.node l r

/-- Root of the subtree of height `d` containing the given leaves. -/
def rootAux : Nat → LeafList → Hash
  | 0, [] => Hash.zero
  | 0, (_, h) :: _ => h
  | _ + 1, [] => Hash.zero
  | d + 1, ls =>
      mergeH (rootAux d (branchLeaves false ls)) (rootAux d (branchLeaves true ls))

/-- `merkle_proof`: sibling subtree roots along the path of `k`, top-down. -/
def proofAux : Nat → LeafList → BitKey → List Hash
  | 0, _, _ => []
  | _ + 1, _, [] => []
  | d + 1, ls, b :: k =>
      rootAux d (branchLeaves (!b) ls) :: proofAux d (branchLeaves b ls) k

/-- `MerkleProof::compute_root`: root recomputed from a claimed leaf hash
and the proof's siblings. -/
def computeRootAux : List Hash → BitKey → Hash → Hash
  | [], _, h => h
  | _ :: _, [], h => h
  | s :: rest, b :: k, h =>
      let child := computeRootAux rest k h
      if b then mergeH s child else mergeH child s

/-- `MerkleProof::verify`: recompute the root from the leaves and compare
with the claimed root (the crate's `verify` is exactly this check). -/
def verifyProof (proof : List Hash) (root : Hash) (k : BitKey) (h : Hash) : Bool :=
  computeRootAux proof k h = root

/-- Leaf update at the list level: replace the key's entry in place, or
append it. -/
def updLeaves (ls : LeafList) (k : BitKey) (h : Hash) : LeafList :=
  if ls.any (fun p => p.1 = k) then ls.map (fun p => if p.1 = k then (k, h) else p)
  else ls ++ [(k, h)]

/-- The wallet's account store: the non-zero leaves of the SMT. -/
abbrev AccountStore := List (BitKey × AccountInfo)

/-- The `(key, leaf_hash)` pairs of a store. -/
def leavesOf (m : AccountStore) : LeafList :=
  m.map (fun p => (p.1, p.2.to_h256))

/-- Tree key depth of the wallet SMT (256-bit keys). -/
def smtDepth : Nat := 256

/-- `SparseMerkleTree::root`. -/
def smtRoot (m : AccountStore) : Hash := rootAux smtDepth (leavesOf m)

/-- `SparseMerkleTree::get`: the stored value, or the zero value
(`AccountInfo::default`) when absent. -/
def smtGet (m : AccountStore) (k : BitKey) : AccountInfo :=
  match m.find? (fun p => p.1 = k) with
  | some p => p.2
  | none => AccountInfo.default0

/-- `SparseMerkleTree::update`: store the value under the key; a value
hashing to zero removes the leaf (the crate drops zero leaves from the
store). -/
def smtUpdate (m : AccountStore) (k : BitKey) (v : AccountInfo) : AccountStore :=
  if v.to_h256 = Hash.zero then m.filter (fun p => ¬ p.1 = k)
  else if m.any (fun p => p.1 = k) then m.map (fun p => if p.1 = k then (k, v) else p)
  else m ++ [(k, v)]

/-- `SparseMerkleTree::merkle_proof` for a single key. -/
def smtMerkleProof (m : AccountStore) (k : BitKey) : List Hash :=
  proofAux smtDepth (leavesOf m) k

/-! ## lib.rs: commitments, auth verification, account operations -/

/-- `DEFAULT_INVITE_CODE_PUBLIC_KEY` (lib.rs). -/
def DEFAULT_INVITE_CODE_PUBLIC_KEY : Bytes :=
  [2, 82, 222, 37, 58, 251, 184, 56, 112, 182, 255, 255, 252, 221, 235, 53, 107, 2, 98, 178, 4,
   234, 13, 218, 118, 136, 8, 202, 95, 190, 184, 177, 226]

/-- `get_state_commitment` (lib.rs): `SHA256(root || pubkey)`. -/
def get_state_commitment (root : Hash) (pubkey : Bytes) : Commitment :=
  Commitment.stateCommit root pubkey

/-- `utils::parse_public_key` (utils.rs). -/
def parse_public_key (C : Crypto) (bytes : Bytes) : Except String Bytes :=
  match C.parsePublicKey bytes with
  | some pk => Except.ok pk
  | none => Except.error "Invalid secp256k1 public key"

/-- `utils::ethereum_address_from_public_key` (utils.rs):
`hex(Keccak256(uncompressed_pubkey[1..])[12..])`. -/
def ethereum_address_from_public_key (C : Crypto) (public_key : Bytes) : String :=
  hexEncode (((C.keccak ((C.serUncompressed public_key).drop 1))).drop 12)

/-- ASCII digit test (`u8::is_ascii_digit`). -/
def isAsciiDigit (b : Nat) : Bool := 48 ≤ b ∧ b ≤ 57

/-- The digit-by-digit nonce fold of `AuthMethod::parse_blob_infos`:
errors at the first non-digit byte, otherwise accumulates base 10. -/
def parseAsciiNonce : List Nat → Nat → Except String Nat
  | [], acc => Except.ok acc
  | b :: rest, acc =>
      if isAsciiDigit b then parseAsciiNonce rest (acc * 10 + (b - 48))
      else Except.error "Invalid nonce byte, expected ASCII digit"

/-- `AuthMethod::parse_blob_infos` (lib.rs): split a `check_jwt` payload
into the 32-byte mail hash and the 13 ASCII digits after one separator
byte; trailing bytes are ignored. -/
def AuthMethod.parse_blob_infos (data : Bytes) : Except String (Bytes × Nat) :=
  if data.length < 32 then Except.error "Invalid check_jwt blob size"
  else
    let mail_hash := data.take 32
    let rest := data.drop 32
    if rest.length < 1 then Except.error "Invalid check_jwt blob size"
    else
      let rest2 := rest.drop 1
      if rest2.length < 13 then Except.error "Invalid check_jwt blob size"
      else
        match parseAsciiNonce (rest2.take 13) 0 with
        | Except.error e => Except.error e
        | Except.ok nonce => Except.ok (mail_hash, nonce)

/-- Raw bytes of a blob payload (`b.data.0`).  For tagged payloads this is
their (canonical, injective) borsh encoding; only the raw-byte case is
ever inspected byte-wise by the wallet. -/
def BlobData.rawBytes : BlobData → Bytes
  | BlobData.rawB bs => bs
  | BlobData.action a => 0 :: strBytes (toString (repr a))
  | BlobData.secp b => 1 :: strBytes (toString (repr b))

/-- `IndexedBlobs::get(index)`: the first blob carrying the index. -/
def blobAt (cd : Calldata) (i : Nat) : Option Blob :=
  (cd.blobs.find? (fun p => p.1 = i)).map (fun p => p.2)

/-- `AuthMethod::verify` (lib.rs): verify the authentication witness in
the call data against the stored method, for the given wallet-blob
nonce. -/
def AuthMethod.verify (C : Crypto) (self : AuthMethod) (cd : Calldata)
    (wallet_blob_nonce : Nat) : Except String String :=
  match self with
  | AuthMethod.Uninitialized => Except.error "Wallet is not initialized"
  | AuthMethod.Jwt hash =>
      match cd.blobs.find? (fun p => p.2.contract_name = "check_jwt") with
      | none => Except.error "Missing check_mail blob"
      | some p =>
          match AuthMethod.parse_blob_infos p.2.data.rawBytes with
          | Except.error e => Except.error e
          | Except.ok (mail_hash, nonce) =>
              if mail_hash ≠ hash then Except.error "Invalid authentication, mail hash mismatch"
              else if nonce ≠ wallet_blob_nonce then Except.error "Invalid nonce"
              else Except.ok "Authentication successful"
  | AuthMethod.Ethereum address =>
      match blobAt cd 1 with
      | none => Except.error "Invalid blob index for secp256k1"
      | some blob =>
          match decodeSecp blob.data with
          | none => Except.error "Failed to decode Eth Secp256k1Blob"
          | some secp256k1blob =>
              let signing_message :=
                "Sign in to Hyli as " ++ cd.identity ++ " with nonce "
                  ++ toString wallet_blob_nonce
              let expected_message :=
                String.mk [Char.ofNat 25] ++ "Ethereum Signed Message:"
                  ++ String.mk [Char.ofNat 10] ++ toString signing_message.length
                  ++ signing_message
              let digest := C.keccak (strBytes expected_message)
              if secp256k1blob.data ≠ digest then
                Except.error "Invalid signature data"
              else
                match parse_public_key C secp256k1blob.public_key with
                | Except.error e => Except.error e
                | Except.ok public_key =>
                    let derived_address_hex := ethereum_address_from_public_key C public_key
                    let expected_address :=
                      ((address.dropPrefix? "0x").getD address.toSubstring).toString.toLower
                    if derived_address_hex ≠ expected_address then
                      Except.error "Invalid address"
                    else Except.ok "Authentication successful"
  | AuthMethod.Password hash =>
      match cd.blobs.find? (fun p => p.2.contract_name = "check_secret") with
      | none => Except.error "Missing check_secret blob"
      | some p =>
          let checked_hash := hexEncode p.2.data.rawBytes
          if checked_hash ≠ hash then
            Except.error "Invalid authentication, password hash mismatch"
          else Except.ok "Authentication successful"
  | AuthMethod.HyliApp address =>
      match blobAt cd 1 with
      | none => Except.error "Invalid blob index for secp256k1"
      | some blob =>
          match decodeSecp blob.data with
          | none => Except.error "Failed to decode Secp256k1Blob"
          | some secp256k1blob =>
              let expected_message :=
                cd.identity ++ ":" ++ toString wallet_blob_nonce ++ ":hyliapp"
              let digest := C.sha256 (strBytes expected_message)
              if secp256k1blob.data ≠ digest then
                Except.error "Invalid signature data"
              else
                match parse_public_key C secp256k1blob.public_key with
                | Except.error e => Except.error e
                | Except.ok public_key =>
                    let pubkey_hash := C.sha256 (C.serCompressed public_key)
                    let derived_address_hex := hexEncode (pubkey_hash.take 20)
                    let expected_address :=
                      ((address.dropPrefix? "0x").getD address.toSubstring).toString.toLower
                    if derived_address_hex ≠ expected_address then
                      Except.error "Invalid address"
                    else Except.ok "Authentication successful"

/-! ## sdk helpers used by both executors -/

/-- `CheckSecp256k1::new(calldata, data).expect()` (hyli sdk).  Modelled
from the spec (sections 4.6, 6): locate the first `secp256k1` blob whose
borsh payload decodes, require its digest to equal `SHA256(data)`, its
identity to match the call data and its signature to be valid, and
return it. -/
def checkSecp256k1 (C : Crypto) (cd : Calldata) (data : Bytes) : Except String Secp256k1Blob :=
  match cd.blobs.find? (fun p => p.2.contract_name = "secp256k1") with
  | none => Except.error "Missing secp256k1 blob"
  | some p =>
      match decodeSecp p.2.data with
      | none => Except.error "Failed to decode Secp256k1Blob"
      | some blob =>
          if blob.data ≠ C.sha256 data then Except.error "Invalid secp256k1 data"
          else if blob.identity ≠ cd.identity then Except.error "Invalid secp256k1 identity"
          else if ¬ C.sigOk blob then Except.error "Invalid secp256k1 signature"
          else Except.ok blob

/-- `sdk::utils::parse_raw_calldata::<WalletAction>` (hyli sdk).  Modelled
from the spec: fetch the blob at `calldata.index` and borsh-decode the
action (the error text is fixed by the repository's own test
`test_proof_of_failure`). -/
def parse_raw_calldata (cd : Calldata) : Except String WalletAction :=
  match blobAt cd cd.index with
  | none => Except.error ("Blob not found at index " ++ toString cd.index)
  | some blob =>
      match decodeAction blob.data with
      | some a => Except.ok a
      | none => Except.error ("Could not deserialize Blob at index " ++ toString cd.index)

/-- `check_for_invite_code` (lib.rs, non-test build): re-derive
`"Invite - {invite_code} for {account}"`, locate the matching secp256k1
side blob and require its public key to equal the state's invite-code
public key. -/
def check_for_invite_code (C : Crypto) (account invite_code : String) (cd : Calldata)
    (invite_code_public_key : Bytes) : Except String Unit :=
  let data := "Invite - " ++ invite_code ++ " for " ++ account
  match checkSecp256k1 C cd (strBytes data) with
  | Except.error e => Except.error e
  | Except.ok blob =>
      if blob.public_key ≠ invite_code_public_key then Except.error "Invalid public key"
      else Except.ok ()

/-! ## AccountInfo state methods (lib.rs)

Each `&mut self` method returns the (possibly partially mutated) record
together with its `Result`. -/

/-- `AccountInfo::check_verify_identity_in_previous_blobs` (lib.rs):
iterate the call data blobs, stopping (`break`) at the first index not
below the current one; succeed at the first `"wallet"` blob decoding to a
`VerifyIdentity` or `RegisterIdentity` for the expected account. -/
def AccountInfo.check_verify_identity_in_previous_blobs (cd : Calldata)
    (expected_account : String) : List (Nat × Blob) → Except String Unit
  | [] =>
      Except.error ("No action that proves identity found in previous blobs for account: "
        ++ expected_account)
  | (blob_index, blob) :: rest =>
      if blob_index ≥ cd.index then
        Except.error ("No action that proves identity found in previous blobs for account: "
          ++ expected_account)
      else if blob.contract_name = "wallet" then
        match decodeAction blob.data with
        | some (WalletAction.VerifyIdentity account _) =>
            if account = expected_account then Except.ok ()
            else AccountInfo.check_verify_identity_in_previous_blobs cd expected_account rest
        | some (WalletAction.RegisterIdentity account _ _ _ _) =>
            if account = expected_account then Except.ok ()
            else AccountInfo.check_verify_identity_in_previous_blobs cd expected_account rest
        | _ => AccountInfo.check_verify_identity_in_previous_blobs cd expected_account rest
      else AccountInfo.check_verify_identity_in_previous_blobs cd expected_account rest

/-- `AccountInfo::register_identity` (lib.rs). -/
def AccountInfo.register_identity (self : AccountInfo) (account : String) (nonce : Nat)
    (auth_method : AuthMethod) : AccountInfo × Except String String :=
  if self.identity ≠ account then (self, Except.error "Identity already registered")
  else if self.auth_method ≠ AuthMethod.Uninitialized then
    (self, Except.error "Identity already registered")
  else
    ({ self with auth_method := auth_method, nonce := nonce },
      Except.ok ("Successfully registered identity for account: " ++ account))

/-- `AccountInfo::verify_and_update_nonce` (lib.rs): strict increase, or
equality backed by an identity proof in a previous blob of the same
transaction. -/
def AccountInfo.verify_and_update_nonce (self : AccountInfo) (nonce : Nat) (cd : Calldata) :
    AccountInfo × Except String String :=
  if nonce < self.nonce then (self, Except.error "Invalid nonce")
  else if nonce = self.nonce then
    match AccountInfo.check_verify_identity_in_previous_blobs cd self.identity cd.blobs with
    | Except.error e => (self, Except.error e)
    | Except.ok _ => (self, Except.ok "Identity verified")
  else ({ self with nonce := nonce }, Except.ok "Identity verified")

/-- `AccountInfo::add_session_key` (lib.rs): rejects a duplicate
`public_key`. -/
def AccountInfo.add_session_key (self : AccountInfo) (key : String) (expiration_date : Nat)
    (whitelist : Option (List String)) (lane_id : Option String) :
    AccountInfo × Except String String :=
  if self.session_keys.any (fun sk => sk.public_key = key) then
    (self, Except.error "Session key already exists")
  else
    ({ self with session_keys := self.session_keys ++
        [{ public_key := key, expiration_date := expiration_date,
           whitelist := whitelist, lane_id := lane_id }] },
      Except.ok "Session key added")

/-- `AccountInfo::remove_session_key` (lib.rs): `retain` of all other
keys; errors when nothing was removed. -/
def AccountInfo.remove_session_key (self : AccountInfo) (key : String) :
    AccountInfo × Except String String :=
  let kept := self.session_keys.filter (fun sk => sk.public_key ≠ key)
  if kept.length = self.session_keys.length then
    (self, Except.error "Session key not found")
  else ({ self with session_keys := kept }, Except.ok "Session key removed")

/-- `AccountInfo::use_session_key` (lib.rs): whole-transaction whitelist,
lane and expiration checks against the first session key carrying the
public key.  The record is not mutated. -/
def AccountInfo.use_session_key (self : AccountInfo) (public_key : String) (cd : Calldata) :
    AccountInfo × Except String String :=
  match cd.tx_ctx with
  | none => (self, Except.error "tx_ctx is missing")
  | some tx_ctx =>
      if cd.blobs.length ≠ cd.tx_blob_count then
        (self, Except.error "All blobs should be in the Calldata for whitelist validation")
      else
        match self.session_keys.find? (fun sk => sk.public_key = public_key) with
        | none => (self, Except.error "Session key not found")
        | some session_key =>
            match cd.blobs.find? (fun p =>
                !(p.1 == cd.index) && !(p.2.contract_name == "secp256k1") &&
                  match session_key.whitelist with
                  | some whitelist => !(whitelist.contains p.2.contract_name)
                  | none => false) with
            | some p => (self, Except.error ("Blob: " ++ p.2.contract_name ++ " not whitelisted"))
            | none =>
                if session_key.lane_id.isSome ∧ session_key.lane_id ≠ some tx_ctx.lane_id then
                  (self, Except.error "Session key not valid for this lane")
                else if session_key.expiration_date > tx_ctx.timestamp then
                  (self, Except.ok "Session key is valid")
                else (self, Except.error "Session key expired")

/-- `AccountInfo::handle_registration` (lib.rs). -/
def AccountInfo.handle_registration (C : Crypto) (self : AccountInfo) (account : String)
    (nonce : Nat) (auth_method : AuthMethod) (cd : Calldata) :
    AccountInfo × Except String String :=
  match auth_method.verify C cd nonce with
  | Except.error e => (self, Except.error e)
  | Except.ok _ => self.register_identity account nonce auth_method

/-- `AccountInfo::handle_session_key_usage` (lib.rs). -/
def AccountInfo.handle_session_key_usage (C : Crypto) (self : AccountInfo) (account : String)
    (nonce : Nat) (cd : Calldata) : AccountInfo × Except String String :=
  if self.identity ≠ account then
    (self, Except.error "Account does not match registered identity")
  else
    match checkSecp256k1 C cd (strBytes (toString nonce)) with
    | Except.error e => (self, Except.error e)
    | Except.ok secp256k1blob =>
        let public_key := hexEncode secp256k1blob.public_key
        match self.verify_and_update_nonce nonce cd with
        | (self', Except.error e) => (self', Except.error e)
        | (self', Except.ok _) => self'.use_session_key public_key cd

/-- `AccountInfo::handle_authenticated_action` (lib.rs).  Note that the
nonce update performed by `verify_and_update_nonce` persists even when a
later step fails (the receiver is `&mut self`). -/
def AccountInfo.handle_authenticated_action (C : Crypto) (self : AccountInfo)
    (action : WalletAction) (cd : Calldata) : AccountInfo × Except String String :=
  match action with
  | WalletAction.VerifyIdentity account nonce =>
      match self.auth_method.verify C cd nonce with
      | Except.error e => (self, Except.error e)
      | Except.ok _ =>
          if self.identity ≠ account then
            (self, Except.error "Account does not match registered identity")
          else self.verify_and_update_nonce nonce cd
  | WalletAction.AddSessionKey account key expiration_date whitelist lane_id nonce =>
      match self.auth_method.verify C cd nonce with
      | Except.error e => (self, Except.error e)
      | Except.ok _ =>
          match self.verify_and_update_nonce nonce cd with
          | (self', Except.error e) => (self', Except.error e)
          | (self', Except.ok _) =>
              if self'.identity ≠ account then
                (self', Except.error "Account does not match registered identity")
              else self'.add_session_key key expiration_date whitelist lane_id
  | WalletAction.RemoveSessionKey _ key nonce =>
      match self.auth_method.verify C cd nonce with
      | Except.error e => (self, Except.error e)
      | Except.ok _ =>
          match self.verify_and_update_nonce nonce cd with
          | (self', Except.error e) => (self', Except.error e)
          | (self', Except.ok _) => self'.remove_session_key key
  | _ => (self, Except.error "unreachable")

/-! ## Guest executor: `WalletZkView` (lib.rs) -/

/-- `PartialWalletData` (lib.rs). -/
structure PartialWalletData where
  proof : List Hash
  account_info : AccountInfo
  deriving DecidableEq, Repr

/-- `WalletZkView` (lib.rs). -/
structure WalletZkView where
  commitment : Commitment
  invite_code_public_key : Bytes
  partial_data : List PartialWalletData
  deriving DecidableEq, Repr

/-- The action dispatch shared by the guest (lib.rs lines 103-123) over a
single account record; the invite-code rejection surfaces as a normal
error here. -/
def applyWalletAction (C : Crypto) (invite_code_public_key : Bytes) (action : WalletAction)
    (cd : Calldata) (account_info : AccountInfo) : AccountInfo × Except String String :=
  match action with
  | WalletAction.RegisterIdentity account nonce _salt auth_method invite_code =>
      match check_for_invite_code C account invite_code cd invite_code_public_key with
      | Except.error e => (account_info, Except.error e)
      | Except.ok _ => account_info.handle_registration C account nonce auth_method cd
  | WalletAction.UseSessionKey account nonce =>
      account_info.handle_session_key_usage C account nonce cd
  | _ => account_info.handle_authenticated_action C action cd

/-- `WalletZkView::execute` (`ZkContract`, lib.rs): parse the action,
handle the administrative variant, otherwise pop the last partial datum,
check the proof and commitment (panicking on divergence), apply the
action and recompute the commitment on success.  A failing application
returns early with the commitment untouched. -/
def WalletZkView.execute (C : Crypto) (self : WalletZkView) (cd : Calldata) :
    WalletZkView × GuestOut :=
  match parse_raw_calldata cd with
  | Except.error e => (self, GuestOut.err e)
  | Except.ok action =>
      match action with
      | WalletAction.UpdateInviteCodePublicKey invite_code_public_key smt_root =>
          if self.invite_code_public_key ≠ DEFAULT_INVITE_CODE_PUBLIC_KEY then
            (self, GuestOut.err "Invite code public key already set")
          else
            ({ self with
                invite_code_public_key := invite_code_public_key,
                commitment := get_state_commitment (Hash.bytes smt_root) invite_code_public_key },
              GuestOut.ok (strBytes "Updated public key"))
      | _ =>
          match self.partial_data.getLast? with
          | none => (self, GuestOut.panic "No partial data available for the contract state")
          | some pd =>
              let self' : WalletZkView := { self with partial_data := self.partial_data.dropLast }
              let account_key := AccountInfo.compute_key pd.account_info.identity
              let root := computeRootAux pd.proof account_key pd.account_info.to_h256
              if self'.commitment ≠ get_state_commitment root self'.invite_code_public_key then
                (self', GuestOut.panic "State commitment mismatch")
              else if ¬ verifyProof pd.proof root account_key pd.account_info.to_h256 then
                (self', GuestOut.panic "Proof verification failed for the contract state")
              else
                match applyWalletAction C self'.invite_code_public_key action cd
                    pd.account_info with
                | (_, Except.error e) => (self', GuestOut.err e)
                | (account_info', Except.ok res) =>
                    let new_root := computeRootAux pd.proof account_key account_info'.to_h256
                    ({ self' with
                        commitment :=
                          get_state_commitment new_root self'.invite_code_public_key },
                      GuestOut.ok (strBytes res))

/-! ## Host executor: `Wallet` (client/tx_executor_handler.rs) -/

/-- `Wallet` (tx_executor_handler.rs). -/
structure Wallet where
  invite_code_public_key : Bytes
  smt : AccountStore
  salts : List (String × String)
  deriving DecidableEq, Repr

/-- Body of `Wallet::get_state_commitment` (tx_executor_handler.rs):
`get_state_commitment(*self.smt.0.root(), self.invite_code_public_key)`. -/
def walletStateCommitment (self : Wallet) : Commitment :=
  get_state_commitment (smtRoot self.smt) self.invite_code_public_key

/-- `Wallet::get_state_commitment` (tx_executor_handler.rs). -/
def Wallet.get_state_commitment (self : Wallet) : Commitment :=
  walletStateCommitment self

/-- `sdk::utils::as_hyle_output` (hyli sdk).  Modelled from the spec
(sections 4.4, 7): an `Ok` run yields `success = true` with the supplied
next commitment; an `Err` yields `success = false` with the error text as
program output and the commitment advanced to the pre-state. -/
def as_hyle_output (initial_state_commitment next_state_commitment : Commitment)
    (res : Except String Bytes) : HyleOutput :=
  match res with
  | Except.ok out =>
      { initial_state_commitment := initial_state_commitment,
        next_state_commitment := next_state_commitment,
        program_outputs := out, success := true }
  | Except.error e =>
      { initial_state_commitment := initial_state_commitment,
        next_state_commitment := initial_state_commitment,
        program_outputs := strBytes e, success := false }

/-- The account targeted by a non-administrative action (the 5-variant
match of `actual_handle` / `build_commitment_metadata`). -/
def WalletAction.account? : WalletAction → Option String
  | WalletAction.RegisterIdentity account _ _ _ _ => some account
  | WalletAction.VerifyIdentity account _ => some account
  | WalletAction.AddSessionKey account _ _ _ _ _ => some account
  | WalletAction.RemoveSessionKey account _ _ => some account
  | WalletAction.UseSessionKey account _ => some account
  | WalletAction.UpdateInviteCodePublicKey _ _ => none

/-- `TxExecutorHandler::build_commitment_metadata` for `Wallet`
(tx_executor_handler.rs).  Returns the `WalletZkView` (the borsh
round-trip through `Vec<u8>` is the identity). -/
def Wallet.build_commitment_metadata (self : Wallet) (blob : Blob) : WalletZkView :=
  match decodeAction blob.data with
  | some a =>
      match a.account? with
      | none =>
          { commitment := self.get_state_commitment,
            invite_code_public_key := self.invite_code_public_key,
            partial_data := [] }
      | some account =>
          let account_info :=
            { smtGet self.smt (AccountInfo.compute_key account) with identity := account }
          { commitment := self.get_state_commitment,
            invite_code_public_key := self.invite_code_public_key,
            partial_data :=
              [{ proof := smtMerkleProof self.smt (AccountInfo.compute_key account),
                 account_info := account_info }] }
  | none =>
      { commitment := self.get_state_commitment,
        invite_code_public_key := self.invite_code_public_key,
        partial_data := [] }

/-- `TxExecutorHandler::merge_commitment_metadata` for `Wallet`
(tx_executor_handler.rs): `next.partial_data.extend(initial.partial_data)`
and `initial`'s commitment (the `&self` receiver is unused; borsh
round-trips are the identity). -/
def Wallet.merge_commitment_metadata (initial next : WalletZkView) : WalletZkView :=
  { next with
      partial_data := next.partial_data ++ initial.partial_data,
      commitment := initial.commitment }

/-- Insert into the host's salt map (`HashMap::insert`). -/
def saltsInsert (salts : List (String × String)) (account salt : String) :
    List (String × String) :=
  (account, salt) :: salts.filter (fun p => p.1 ≠ account)

/-- `Wallet::actual_handle` (tx_executor_handler.rs), the body of
`TxExecutorHandler::handle`.  An `Except.error` result models the fatal
(`anyhow::Error`) path with no `HyleOutput`. -/
def Wallet.actual_handle (C : Crypto) (self : Wallet) (cd : Calldata) :
    Wallet × Except String HyleOutput :=
  let initial_state_commitment := self.get_state_commitment
  match parse_raw_calldata cd with
  | Except.error e => (self, Except.error e)
  | Except.ok action =>
      match action.account? with
      | none =>
          match action with
          | WalletAction.UpdateInviteCodePublicKey invite_code_public_key _ =>
              if self.invite_code_public_key ≠ DEFAULT_INVITE_CODE_PUBLIC_KEY then
                (self, Except.error "Invite code public key already set")
              else
                let self' : Wallet := { self with invite_code_public_key := invite_code_public_key }
                (self',
                  Except.ok (as_hyle_output initial_state_commitment self'.get_state_commitment
                    (Except.ok (strBytes "Updated public key"))))
          | _ => (self, Except.error "unreachable")
      | some acc =>
          let account_key := AccountInfo.compute_key acc
          let account_info := { smtGet self.smt account_key with identity := acc }
          let step : Wallet × (AccountInfo × Except String String) ⊕ String :=
            match action with
            | WalletAction.RegisterIdentity account nonce salt auth_method invite_code =>
                match check_for_invite_code C account invite_code cd
                    self.invite_code_public_key with
                | Except.error e => Sum.inr e
                | Except.ok _ =>
                    let res := account_info.handle_registration C account nonce auth_method cd
                    Sum.inl ({ self with salts := saltsInsert self.salts account salt }, res)
            | WalletAction.UseSessionKey account nonce =>
                Sum.inl (self, account_info.handle_session_key_usage C account nonce cd)
            | _ => Sum.inl (self, account_info.handle_authenticated_action C action cd)
          match step with
          | Sum.inr e => (self, Except.error e)
          | Sum.inl (self1, (account_info', result)) =>
              let self2 : Wallet :=
                { self1 with smt := smtUpdate self1.smt account_key account_info' }
              let next_state_commitment := self2.get_state_commitment
              (self2,
                Except.ok (as_hyle_output initial_state_commitment next_state_commitment
                  (result.map strBytes)))

/-! ## Merkle tree lemmas

The fundamental property of the proof model: recomputing the root from a
single-key proof and a (new) leaf hash equals the root of the tree with
that leaf updated. -/

theorem branchLeaves_nil (b : Bool) : branchLeaves b [] = [] := rfl

theorem rootAux_nil : ∀ d, rootAux d [] = Hash.zero
  | 0 => rfl
  | _ + 1 => rfl

theorem mergeH_zero : mergeH Hash.zero Hash.zero = Hash.zero := by
  simp [mergeH]

theorem rootAux_succ (d : Nat) (ls : LeafList) :
    rootAux (d + 1) ls =
      mergeH (rootAux d (branchLeaves false ls)) (rootAux d (branchLeaves true ls)) := by
  cases ls with
  | nil => simp [rootAux_nil, branchLeaves, mergeH_zero]
  | cons p ps => rfl

theorem branchLeaves_cons (b : Bool) (p : BitKey × Hash) (ps : LeafList) :
    branchLeaves b (p :: ps) =
      (match p.1 with
        | [] => branchLeaves b ps
        | bit :: t => if bit = b then (t, p.2) :: branchLeaves b ps else branchLeaves b ps) := by
  cases hp : p.1 with
  | nil => simp [branchLeaves, List.filterMap_cons, hp]
  | cons bit t =>
      by_cases hb : bit = b <;> simp [branchLeaves, List.filterMap_cons, hp, hb]

theorem branchLeaves_append (b : Bool) (ls₁ ls₂ : LeafList) :
    branchLeaves b (ls₁ ++ ls₂) = branchLeaves b ls₁ ++ branchLeaves b ls₂ := by
  simp [branchLeaves, List.filterMap_append]

theorem any_key_branch (b : Bool) (k : BitKey) (ls : LeafList) :
    (branchLeaves b ls).any (fun p => p.1 = k) = ls.any (fun p => p.1 = b :: k) := by
  induction ls with
  | nil => rfl
  | cons p ps ih =>
      rw [branchLeaves_cons]
      cases hp : p.1 with
      | nil => simp [hp, ih]
      | cons bit t =>
          by_cases hb : bit = b
          · subst hb
            by_cases ht : t = k
            · subst ht; simp [hp]
            · simp [hp, ht, ih]
          · have : ¬ (p.1 = b :: k) := by
              rw [hp]; intro hcontra
              exact hb (List.cons.injEq .. ▸ hcontra).1
            simp [hb, hp, ih, this]

/-- Branch of an in-place replacement at key `b :: k`: the matching branch
sees the replacement at `k`. -/
theorem branch_map_upd_same (b : Bool) (k : BitKey) (h : Hash) (ls : LeafList) :
    branchLeaves b (ls.map (fun p => if p.1 = b :: k then (b :: k, h) else p)) =
      (branchLeaves b ls).map (fun p => if p.1 = k then (k, h) else p) := by
  induction ls with
  | nil => rfl
  | cons p ps ih =>
      by_cases hpk : p.1 = b :: k
      · simp only [List.map_cons, if_pos hpk]
        rw [branchLeaves_cons, branchLeaves_cons]
        simp only [hpk]
        simp [ih]
      · simp only [List.map_cons, if_neg hpk]
        rw [branchLeaves_cons, branchLeaves_cons]
        cases hp : p.1 with
        | nil => simp [ih]
        | cons bit t =>
            by_cases hb : bit = b
            · subst hb
              have ht : ¬ t = k := by
                intro hcontra; exact hpk (by rw [hp, hcontra])
              simp [ih, ht]
            · simp [hb, ih]

/-- Branch of an in-place replacement at key `b :: k`, seen from the other
branch: unchanged. -/
theorem branch_map_upd_other (b c : Bool) (hbc : c ≠ b) (k : BitKey) (h : Hash) (ls : LeafList) :
    branchLeaves c (ls.map (fun p => if p.1 = b :: k then (b :: k, h) else p)) =
      branchLeaves c ls := by
  induction ls with
  | nil => rfl
  | cons p ps ih =>
      by_cases hpk : p.1 = b :: k
      · simp only [List.map_cons, if_pos hpk]
        rw [branchLeaves_cons, branchLeaves_cons]
        simp only [hpk]
        simp [Ne.symm hbc, ih]
      · simp only [List.map_cons, if_neg hpk]
        rw [branchLeaves_cons, branchLeaves_cons]
        cases hp : p.1 with
        | nil => simp [ih]
        | cons bit t => by_cases hb : bit = c <;> simp [hb, ih]

theorem branch_updLeaves_same (b : Bool) (k : BitKey) (h : Hash) (ls : LeafList) :
    branchLeaves b (updLeaves ls (b :: k) h) = updLeaves (branchLeaves b ls) k h := by
  unfold updLeaves
  rw [any_key_branch]
  by_cases hmem : ls.any (fun p => p.1 = b :: k)
  · simp only [hmem, if_pos]
    exact branch_map_upd_same b k h ls
  · simp only [hmem, if_neg, Bool.false_eq_true, not_false_iff]
    rw [branchLeaves_append]
    rw [branchLeaves_cons]
    simp [branchLeaves_nil]

theorem branch_updLeaves_other (b c : Bool) (hbc : c ≠ b) (k : BitKey) (h : Hash)
    (ls : LeafList) : branchLeaves c (updLeaves ls (b :: k) h) = branchLeaves c ls := by
  unfold updLeaves
  by_cases hmem : ls.any (fun p => p.1 = b :: k)
  · simp only [hmem, if_pos]
    exact branch_map_upd_other b c hbc k h ls
  · simp only [hmem, if_neg, Bool.false_eq_true, not_false_iff]
    rw [branchLeaves_append, branchLeaves_cons]
    simp [Ne.symm hbc, branchLeaves_nil]

theorem updLeaves_ne_nil (ls : LeafList) (k : BitKey) (h : Hash) :
    updLeaves ls k h ≠ [] := by
  unfold updLeaves
  by_cases hmem : ls.any (fun p => p.1 = k)
  · simp only [hmem, if_pos]
    intro hcontra
    rcases List.map_eq_nil_iff.mp hcontra with rfl
    simp at hmem
  · simp [hmem]

theorem mem_branchLeaves_length (b : Bool) (ls : LeafList) (d : Nat)
    (hls : ∀ p ∈ ls, (p.1 : BitKey).length = d + 1) :
    ∀ p ∈ branchLeaves b ls, (p.1 : BitKey).length = d := by
  intro q hq
  rcases List.mem_filterMap.mp hq with ⟨p, hp, hpq⟩
  cases hk : p.1 with
  | nil => rw [hk] at hpq; simp at hpq
  | cons bit t =>
      rw [hk] at hpq
      by_cases hb : bit = b
      · simp only [hb, if_pos rfl] at hpq
        cases hpq
        have := hls p hp
        rw [hk] at this
        simpa using this
      · simp [hb] at hpq

/-- Fundamental lemma: root recomputed from the single-key proof and a leaf
hash equals the root of the leaf list with that leaf replaced (in place
or appended). -/
theorem computeRoot_proofAux :
    ∀ (d : Nat) (ls : LeafList) (k : BitKey) (h : Hash),
      k.length = d → (∀ p ∈ ls, (p.1 : BitKey).length = d) →
      computeRootAux (proofAux d ls k) k h = rootAux d (updLeaves ls k h)
  | 0, ls, k, h, hk, hls => by
      have hknil : k = [] := List.eq_nil_of_length_eq_zero hk
      subst hknil
      show h = rootAux 0 (updLeaves ls [] h)
      unfold updLeaves
      cases ls with
      | nil => rfl
      | cons p ps =>
          have hp : p.1 = [] := List.eq_nil_of_length_eq_zero (hls p (List.mem_cons_self p ps))
          have hmem : (p :: ps).any (fun q => q.1 = ([] : BitKey)) = true := by
            simp [List.any_cons, hp]
          simp only [hmem, if_pos]
          simp only [List.map_cons]
          rw [if_pos hp]
          rfl
  | d + 1, ls, k, h, hk, hls => by
      cases k with
      | nil => simp at hk
      | cons b k' =>
          have hk' : k'.length = d := by simpa using hk
          have hls' : ∀ p ∈ branchLeaves b ls, (p.1 : BitKey).length = d :=
            mem_branchLeaves_length b ls d hls
          have ih := computeRoot_proofAux d (branchLeaves b ls) k' h hk' hls'
          rw [rootAux_succ d (updLeaves ls (b :: k') h)]
          cases b with
          | false =>
              rw [branch_updLeaves_same false k' h ls,
                branch_updLeaves_other false true (by simp) k' h ls]
              show computeRootAux
                  (rootAux d (branchLeaves true ls) :: proofAux d (branchLeaves false ls) k')
                  (false :: k') h = _
              simp only [computeRootAux, if_neg (by simp : ¬ false = true)]
              rw [ih]
          | true =>
              rw [branch_updLeaves_same true k' h ls,
                branch_updLeaves_other true false (by simp) k' h ls]
              show computeRootAux
                  (rootAux d (branchLeaves false ls) :: proofAux d (branchLeaves true ls) k')
                  (true :: k') h = _
              simp only [computeRootAux]
              rw [if_pos trivial, ih]

theorem branch_filter_same (b : Bool) (k : BitKey) (ls : LeafList) :
    branchLeaves b (ls.filter (fun p => ¬ p.1 = b :: k)) =
      (branchLeaves b ls).filter (fun p => ¬ p.1 = k) := by
  induction ls with
  | nil => rfl
  | cons p ps ih =>
      simp only [decide_not] at ih
      by_cases hpk : p.1 = b :: k
      · rw [List.filter_cons_of_neg (by simp [hpk]), branchLeaves_cons]
        simp only [hpk]
        simp [List.filter_cons, ih]
      · rw [List.filter_cons_of_pos (by simp [hpk]), branchLeaves_cons, branchLeaves_cons]
        cases hp : p.1 with
        | nil => simpa using ih
        | cons bit t =>
            by_cases hb : bit = b
            · subst hb
              have ht : ¬ t = k := by
                intro hcontra; exact hpk (by rw [hp, hcontra])
              simp [List.filter_cons, ht, ih]
            · simp [hb, ih]

theorem branch_filter_other (b c : Bool) (hbc : c ≠ b) (k : BitKey) (ls : LeafList) :
    branchLeaves c (ls.filter (fun p => ¬ p.1 = b :: k)) = branchLeaves c ls := by
  induction ls with
  | nil => rfl
  | cons p ps ih =>
      simp only [decide_not] at ih
      by_cases hpk : p.1 = b :: k
      · rw [List.filter_cons_of_neg (by simp [hpk]), branchLeaves_cons]
        simp only [hpk]
        simp [Ne.symm hbc, ih]
      · rw [List.filter_cons_of_pos (by simp [hpk]), branchLeaves_cons, branchLeaves_cons]
        cases hp : p.1 with
        | nil => simpa using ih
        | cons bit t => by_cases hb : bit = c <;> simp [hb, ih]

/-- Setting a leaf to the zero hash has the same root as removing it. -/
theorem rootAux_updLeaves_zero :
    ∀ (d : Nat) (ls : LeafList) (k : BitKey),
      k.length = d → (∀ p ∈ ls, (p.1 : BitKey).length = d) →
      rootAux d (updLeaves ls k Hash.zero) =
        rootAux d (ls.filter (fun p => ¬ p.1 = k))
  | 0, ls, k, hk, hls => by
      have hknil : k = [] := List.eq_nil_of_length_eq_zero hk
      subst hknil
      cases ls with
      | nil => rfl
      | cons p ps =>
          have hp : p.1 = [] := List.eq_nil_of_length_eq_zero (hls p (List.mem_cons_self p ps))
          have hmem : (p :: ps).any (fun q => q.1 = ([] : BitKey)) = true := by
            simp [List.any_cons, hp]
          unfold updLeaves
          simp only [hmem, if_pos]
          rw [List.filter_cons_of_neg (by simp [hp])]
          simp only [List.map_cons]
          rw [if_pos hp]
          show Hash.zero = rootAux 0 (ps.filter fun p => ¬ p.1 = ([] : BitKey))
      -- every key in ps also has length 0, so the filter removes everything
          have : ps.filter (fun p => ¬ p.1 = ([] : BitKey)) = [] := by
            apply List.filter_eq_nil_iff.mpr
            intro q hq
            have : q.1 = [] :=
              List.eq_nil_of_length_eq_zero (hls q (List.mem_cons_of_mem p hq))
            simp [this]
          rw [this]
          rfl
  | d + 1, ls, k, hk, hls => by
      cases k with
      | nil => simp at hk
      | cons b k' =>
          have hk' : k'.length = d := by simpa using hk
          have hls' : ∀ p ∈ branchLeaves b ls, (p.1 : BitKey).length = d :=
            mem_branchLeaves_length b ls d hls
          have ih := rootAux_updLeaves_zero d (branchLeaves b ls) k' hk' hls'
          rw [rootAux_succ d (updLeaves ls (b :: k') Hash.zero),
            rootAux_succ d (ls.filter fun p => ¬ p.1 = b :: k')]
          cases b with
          | false =>
              rw [branch_updLeaves_same false k' Hash.zero ls,
                branch_updLeaves_other false true (by simp) k' Hash.zero ls,
                branch_filter_same false k' ls,
                branch_filter_other false true (by simp) k' ls, ih]
          | true =>
              rw [branch_updLeaves_same true k' Hash.zero ls,
                branch_updLeaves_other true false (by simp) k' Hash.zero ls,
                branch_filter_same true k' ls,
                branch_filter_other true false (by simp) k' ls, ih]

/-! ## Store-level correspondence -/

/-- Well-formedness of a host account store: tree keys have the SMT depth,
are pairwise distinct, and each entry is keyed by its record's identity
(spec section 3, invariant 1). -/
def storeWF (m : AccountStore) : Prop :=
  (∀ p ∈ m, (p.1 : BitKey).length = smtDepth) ∧
    m.Pairwise (fun p q => p.1 ≠ q.1) ∧
    ∀ p ∈ m, p.1 = AccountInfo.compute_key p.2.identity

instance (m : AccountStore) : Decidable (storeWF m) := by
  unfold storeWF
  infer_instance

theorem leavesOf_length (m : AccountStore)
    (hm : ∀ p ∈ m, (p.1 : BitKey).length = smtDepth) :
    ∀ p ∈ leavesOf m, (p.1 : BitKey).length = smtDepth := by
  intro q hq
  rcases List.mem_map.mp hq with ⟨p, hp, rfl⟩
  exact hm p hp

theorem leavesOf_any (m : AccountStore) (k : BitKey) :
    (leavesOf m).any (fun p => p.1 = k) = m.any (fun p => p.1 = k) := by
  unfold leavesOf
  induction m with
  | nil => rfl
  | cons p ps ih => simp [List.any_cons, ih]

theorem leavesOf_filter (m : AccountStore) (k : BitKey) :
    leavesOf (m.filter (fun p => ¬ p.1 = k)) =
      (leavesOf m).filter (fun p => ¬ p.1 = k) := by
  simp only [leavesOf, List.filter_map]
  congr 1

theorem leavesOf_update (m : AccountStore) (k : BitKey) (v : AccountInfo)
    (hnz : ¬ v.to_h256 = Hash.zero) :
    leavesOf (smtUpdate m k v) = updLeaves (leavesOf m) k v.to_h256 := by
  unfold smtUpdate updLeaves
  rw [if_neg hnz, leavesOf_any]
  by_cases hmem : m.any (fun p => p.1 = k)
  · simp only [hmem, if_pos]
    simp only [leavesOf, List.map_map]
    apply List.map_congr_left
    intro p _
    by_cases hpk : p.1 = k <;> simp [Function.comp, hpk]
  · simp only [hmem, if_neg, Bool.false_eq_true, not_false_iff]
    simp [leavesOf]

/-- Host-side root after `update` as a leaf-level update. -/
theorem smtRoot_update (m : AccountStore) (k : BitKey) (v : AccountInfo)
    (hk : k.length = smtDepth) (hm : ∀ p ∈ m, (p.1 : BitKey).length = smtDepth) :
    smtRoot (smtUpdate m k v) = rootAux smtDepth (updLeaves (leavesOf m) k v.to_h256) := by
  by_cases hz : v.to_h256 = Hash.zero
  · unfold smtRoot smtUpdate
    rw [if_pos hz, leavesOf_filter, hz,
      rootAux_updLeaves_zero smtDepth (leavesOf m) k hk (leavesOf_length m hm)]
  · unfold smtRoot
    rw [leavesOf_update m k v hz]

/-- Guest-side recomputed root as the same leaf-level update. -/
theorem computeRoot_smtProof (m : AccountStore) (k : BitKey) (h : Hash)
    (hk : k.length = smtDepth) (hm : ∀ p ∈ m, (p.1 : BitKey).length = smtDepth) :
    computeRootAux (smtMerkleProof m k) k h =
      rootAux smtDepth (updLeaves (leavesOf m) k h) :=
  computeRoot_proofAux smtDepth (leavesOf m) k h hk (leavesOf_length m hm)

/-- Host/guest root agreement for the updated leaf. -/
theorem computeRoot_eq_root_update (m : AccountStore) (k : BitKey) (v : AccountInfo)
    (hk : k.length = smtDepth) (hm : ∀ p ∈ m, (p.1 : BitKey).length = smtDepth) :
    computeRootAux (smtMerkleProof m k) k v.to_h256 = smtRoot (smtUpdate m k v) := by
  rw [computeRoot_smtProof m k v.to_h256 hk hm, smtRoot_update m k v hk hm]

theorem updLeaves_found (ls : LeafList) (k : BitKey) (h : Hash)
    (hmem : (k, h) ∈ ls) (hval : ∀ p ∈ ls, p.1 = k → p.2 = h) :
    updLeaves ls k h = ls := by
  unfold updLeaves
  have hany : ls.any (fun p => p.1 = k) = true := by
    simp only [List.any_eq_true]
    exact ⟨(k, h), hmem, by simp⟩
  simp only [hany, if_pos]
  conv_rhs => rw [show ls = ls.map id from (List.map_id ls).symm]
  apply List.map_congr_left
  intro p hp
  obtain ⟨p1, p2⟩ := p
  by_cases hpk : p1 = k
  · have h2 : p2 = h := hval (p1, p2) hp hpk
    subst hpk
    subst h2
    simp
  · simp [hpk]

theorem compute_key_length (s : String) :
    (AccountInfo.compute_key s).length = smtDepth := by
  unfold AccountInfo.compute_key smtDepth
  rw [List.length_take, List.length_append, List.length_replicate]
  omega

theorem pairwise_key_unique (m : AccountStore)
    (hnd : m.Pairwise (fun p q => p.1 ≠ q.1)) :
    ∀ p ∈ m, ∀ q ∈ m, p.1 = q.1 → p = q := by
  induction m with
  | nil => intro p hp; simp at hp
  | cons r rs ih =>
      rcases List.pairwise_cons.mp hnd with ⟨hr, hrs⟩
      intro p hp q hq hpq
      rcases List.mem_cons.mp hp with rfl | hp'
      · rcases List.mem_cons.mp hq with rfl | hq'
        · rfl
        · exact absurd hpq (hr q hq')
      · rcases List.mem_cons.mp hq with rfl | hq'
        · exact absurd hpq.symm (hr p hp')
        · exact ih hrs p hp' q hq' hpq

/-- The record handed to the guest (stored record with the identity field
set to the target account) hashes back to the current root: the witness
check of `WalletZkView::execute` passes on host-built witnesses. -/
theorem computeRoot_get_eq_root (m : AccountStore) (acc : String)
    (hwf : storeWF m)
    (hcol : ∀ p ∈ m, p.1 = AccountInfo.compute_key acc → p.2.identity = acc) :
    computeRootAux (smtMerkleProof m (AccountInfo.compute_key acc))
        (AccountInfo.compute_key acc)
        ({ smtGet m (AccountInfo.compute_key acc) with identity := acc } : AccountInfo).to_h256
      = smtRoot m := by
  obtain ⟨hlen, hnd, _⟩ := hwf
  set k := AccountInfo.compute_key acc with hk
  rw [computeRoot_smtProof m k _ (compute_key_length acc) hlen]
  unfold smtGet
  cases hfind : m.find? (fun p => p.1 = k) with
  | none =>
      have habs : ∀ p ∈ m, ¬ p.1 = k := by
        intro p hp
        have := List.find?_eq_none.mp hfind p hp
        simpa using this
      have hzero : ({ AccountInfo.default0 with identity := acc } : AccountInfo).to_h256
          = Hash.zero := rfl
      rw [hzero, rootAux_updLeaves_zero smtDepth (leavesOf m) k (compute_key_length acc)
        (leavesOf_length m hlen)]
      unfold smtRoot
      congr 1
      apply List.filter_eq_self.mpr
      intro q hq
      rcases List.mem_map.mp hq with ⟨p, hp, rfl⟩
      simpa using habs p hp
  | some pv =>
      have hmem : pv ∈ m := List.mem_of_find?_eq_some hfind
      have hkey : pv.1 = k := by
        have := List.find?_some hfind
        simpa using this
      have hid : pv.2.identity = acc := hcol pv hmem hkey
      have hrec : ({ pv.2 with identity := acc } : AccountInfo) = pv.2 := by
        rw [← hid]
      rw [hrec]
      have hlmem : (k, pv.2.to_h256) ∈ leavesOf m := by
        unfold leavesOf
        apply List.mem_map.mpr
        exact ⟨pv, hmem, by rw [hkey]⟩
      have hval : ∀ q ∈ leavesOf m, q.1 = k → q.2 = pv.2.to_h256 := by
        intro q hq hqk
        rcases List.mem_map.mp hq with ⟨p, hp, rfl⟩
        have hpp : p = pv :=
          pairwise_key_unique m hnd p hp pv hmem (hqk.trans hkey.symm)
        rw [hpp]
      rw [updLeaves_found (leavesOf m) k pv.2.to_h256 hlmem hval]
      rfl

/-! ## Auxiliary predicates used in claim statements -/

/-- `Result::is_ok`. -/
def isOkE {α : Type} (r : Except String α) : Bool :=
  match r with
  | Except.ok _ => true
  | Except.error _ => false

/-- The loop-body condition of
`check_verify_identity_in_previous_blobs`: a `"wallet"` blob decoding to
a `VerifyIdentity` or `RegisterIdentity` naming the expected account. -/
def provesIdentityBlob (expected : String) (b : Blob) : Bool :=
  b.contract_name = "wallet" &&
    match decodeAction b.data with
    | some (WalletAction.VerifyIdentity account _) => account = expected
    | some (WalletAction.RegisterIdentity account _ _ _ _) => account = expected
    | _ => false

/-- Decimal value of a run of ASCII digit bytes. -/
def asciiVal (l : Bytes) : Nat := l.foldl (fun acc b => acc * 10 + (b - 48)) 0

/-! ## Concrete fixtures for witnesses and counterexamples -/

/-- A concrete, executable instance of the external primitives (used only
to instantiate witnesses; all claim theorems hold for every instance). -/
def cryptoX : Crypto :=
  { sha256 := fun bs => 0 :: bs, keccak := fun bs => 1 :: bs,
    parsePublicKey := fun bs => some bs, serUncompressed := fun bs => 4 :: bs,
    serCompressed := fun bs => bs, sigOk := fun _ => true }

def exPwBytes : Bytes := strBytes "pw"

def exPwHex : String := hexEncode exPwBytes

/-- A registered account with one session key. -/
def exBobKey : SessionKey :=
  { public_key := "k1", expiration_date := 99, whitelist := none, lane_id := none }

def exBobRec : AccountInfo :=
  { identity := "bob", auth_method := AuthMethod.Password exPwHex,
    session_keys := [exBobKey], nonce := 5 }

def exBobWallet : Wallet :=
  { invite_code_public_key := DEFAULT_INVITE_CODE_PUBLIC_KEY,
    smt := [(AccountInfo.compute_key "bob", exBobRec)], salts := [] }

/-- `AddSessionKey` re-adding the existing key `"k1"` with a fresh nonce:
authentication passes, the nonce check passes and mutates the record, the
duplicate check then fails. -/
def exAddDupAction : WalletAction :=
  WalletAction.AddSessionKey "bob" "k1" 100 none none 6

def exAddDupCd : Calldata :=
  { identity := "", tx_hash := [], tx_blob_count := 2, index := 0, tx_ctx := none,
    private_input := [],
    blobs := [(0, { contract_name := "wallet", data := BlobData.action exAddDupAction }),
              (1, { contract_name := "check_secret", data := BlobData.rawB exPwBytes })] }

def exAddDupBlob : Blob := { contract_name := "wallet", data := BlobData.action exAddDupAction }

/-! ## C7 — `merge_witnesses` concatenation order -/

/-- C7 (amended): `merge_witnesses(a, b)` keeps `a`'s commitment, and its
`partial_data` is `b`'s followed by `a`'s (so that popping from the end
consumes `a`'s entries first). -/
theorem C7_merge_order (a b : WalletZkView) :
    (Wallet.merge_commitment_metadata a b).partial_data = b.partial_data ++ a.partial_data ∧
      (Wallet.merge_commitment_metadata a b).commitment = a.commitment := by
  constructor <;> rfl

def exPdA : PartialWalletData :=
  { proof := [],
    account_info := { identity := "a", auth_method := AuthMethod.Password "x",
                      session_keys := [], nonce := 1 } }

def exPdB : PartialWalletData :=
  { proof := [],
    account_info := { identity := "b", auth_method := AuthMethod.Password "y",
                      session_keys := [], nonce := 2 } }

def exViewA : WalletZkView :=
  { commitment := Commitment.raw [1], invite_code_public_key := DEFAULT_INVITE_CODE_PUBLIC_KEY,
    partial_data := [exPdA] }

def exViewB : WalletZkView :=
  { commitment := Commitment.raw [2], invite_code_public_key := DEFAULT_INVITE_CODE_PUBLIC_KEY,
    partial_data := [exPdB] }

/-- C7 counterexample: for concrete envelopes `a`, `b` with one entry
each, the merged `partial_data` is `b ++ a`, not `a ++ b` as the claim
("b's placed after a's") states; the commitment is `a`'s. -/
theorem C7_counterexample :
    ¬ (Wallet.merge_commitment_metadata exViewA exViewB).partial_data =
        exViewA.partial_data ++ exViewB.partial_data ∧
      (Wallet.merge_commitment_metadata exViewA exViewB).partial_data =
        exViewB.partial_data ++ exViewA.partial_data ∧
      (Wallet.merge_commitment_metadata exViewA exViewB).commitment = exViewA.commitment := by
  refine ⟨?_, rfl, rfl⟩
  decide

/-! ## C10 — malformed wallet blob: provable failure, no state change -/

/-- C10: when the blob at `calldata.index` does not decode as a
`WalletAction`, the guest's `execute` returns a plain error (no panic),
leaving `partial_data` and the commitment untouched. -/
theorem C10_malformed_blob (C : Crypto) (view : WalletZkView) (cd : Calldata)
    (i : Nat) (b : Blob)
    (hblob : cd.blobs.find? (fun p => p.1 = cd.index) = some (i, b))
    (hdec : decodeAction b.data = none) :
    view.execute C cd =
      (view, GuestOut.err ("Could not deserialize Blob at index " ++ toString cd.index)) := by
  unfold WalletZkView.execute parse_raw_calldata blobAt
  rw [hblob]
  simp [hdec]

def exBadBlob : Blob := { contract_name := "Wallet", data := BlobData.rawB [43, 12, 56] }

def exBadCd : Calldata :=
  { identity := "", tx_hash := [], tx_blob_count := 1, index := 0, tx_ctx := none,
    private_input := [], blobs := [(0, exBadBlob)] }

/-- C10 witness: the repository's `test_proof_of_failure` scenario — a
`[43, 12, 56]` payload yields exactly the deserialization error with the
view unchanged. -/
theorem C10_malformed_blob_witness :
    exViewA.execute cryptoX exBadCd =
      (exViewA, GuestOut.err ("Could not deserialize Blob at index " ++ toString exBadCd.index)) :=
  C10_malformed_blob cryptoX exViewA exBadCd 0 exBadBlob rfl rfl

/-! ## C4 — invite-code public key is one-shot -/

/-- C4: once the invite-code public key differs from the compile-time
default (i.e. after its first non-default assignment), every
`UpdateInviteCodePublicKey` fails on the host (fatal error, no output)
and on the guest (plain error), leaving the wallet state — key and
commitment — unchanged on both sides. -/
theorem C4_invite_key_one_shot (C : Crypto) (w : Wallet) (view : WalletZkView)
    (cd : Calldata) (k r : Bytes)
    (hparse : parse_raw_calldata cd = Except.ok (WalletAction.UpdateInviteCodePublicKey k r)) :
    (¬ w.invite_code_public_key = DEFAULT_INVITE_CODE_PUBLIC_KEY →
      w.actual_handle C cd = (w, Except.error "Invite code public key already set")) ∧
    (¬ view.invite_code_public_key = DEFAULT_INVITE_CODE_PUBLIC_KEY →
      view.execute C cd = (view, GuestOut.err "Invite code public key already set")) := by
  constructor
  · intro hne
    unfold Wallet.actual_handle
    rw [hparse]
    simp [WalletAction.account?, hne]
  · intro hne
    unfold WalletZkView.execute
    rw [hparse]
    simp [hne]

def exW4 : Wallet :=
  { invite_code_public_key := List.replicate 33 4, smt := [], salts := [] }

def exView4 : WalletZkView :=
  { commitment := Commitment.stateCommit Hash.zero (List.replicate 33 4),
    invite_code_public_key := List.replicate 33 4, partial_data := [] }

def exUpdCd : Calldata :=
  { identity := "", tx_hash := [], tx_blob_count := 1, index := 0, tx_ctx := none,
    private_input := [],
    blobs := [(0, { contract_name := "wallet",
                    data := BlobData.action
                      (WalletAction.UpdateInviteCodePublicKey (List.replicate 33 5)
                        (List.replicate 32 0)) })] }

/-- C4 witness: after the key moved to `[4; 33]`, a second update to
`[5; 33]` fails on both executors with the state unchanged. -/
theorem C4_invite_key_one_shot_witness :
    exW4.actual_handle cryptoX exUpdCd = (exW4, Except.error "Invite code public key already set") ∧
      exView4.execute cryptoX exUpdCd =
        (exView4, GuestOut.err "Invite code public key already set") := by
  have h := C4_invite_key_one_shot cryptoX exW4 exView4 exUpdCd
    (List.replicate 33 5) (List.replicate 32 0) rfl
  exact ⟨h.1 (by decide), h.2 (by decide)⟩

/-! ## C5 — nonce verification -/

/-- The prior-blob scan, on an index-sorted blob list, succeeds exactly
when some blob with index strictly below the current one proves the
identity. -/
theorem scan_ok_iff (cd : Calldata) (expected : String) :
    ∀ (l : List (Nat × Blob)), List.Pairwise (fun p q => p.1 < q.1) l →
      (AccountInfo.check_verify_identity_in_previous_blobs cd expected l = Except.ok () ↔
        ∃ p ∈ l, p.1 < cd.index ∧ provesIdentityBlob expected p.2) := by
  intro l
  induction l with
  | nil =>
      intro _
      simp [AccountInfo.check_verify_identity_in_previous_blobs]
  | cons r rs ih =>
      intro hsort
      rcases List.pairwise_cons.mp hsort with ⟨hr, hrs⟩
      obtain ⟨ri, rb⟩ := r
      by_cases hge : ri ≥ cd.index
      · rw [show AccountInfo.check_verify_identity_in_previous_blobs cd expected
            ((ri, rb) :: rs) =
            Except.error ("No action that proves identity found in previous blobs for account: "
              ++ expected) from by
          simp only [AccountInfo.check_verify_identity_in_previous_blobs]
          rw [if_pos hge]]
        constructor
        · intro hcontra; cases hcontra
        · rintro ⟨p, hp, hlt, _⟩
          rcases List.mem_cons.mp hp with rfl | hp'
          · simp at hlt; omega
          · have := hr p hp'
            simp at this
            omega
      · have hlt : ri < cd.index := by omega
        have hstep : AccountInfo.check_verify_identity_in_previous_blobs cd expected
            ((ri, rb) :: rs) =
            if provesIdentityBlob expected rb then Except.ok ()
            else AccountInfo.check_verify_identity_in_previous_blobs cd expected rs := by
          simp only [AccountInfo.check_verify_identity_in_previous_blobs]
          rw [if_neg hge]
          unfold provesIdentityBlob
          by_cases hw : rb.contract_name = "wallet"
          · rw [if_pos hw]
            simp only [hw]
            cases hdec : decodeAction rb.data with
            | none => simp
            | some a =>
                cases a with
                | VerifyIdentity account n =>
                    by_cases hacc : account = expected <;> simp [hacc]
                | RegisterIdentity account n salt am i =>
                    by_cases hacc : account = expected <;> simp [hacc]
                | AddSessionKey a k e wl ln n => simp
                | RemoveSessionKey a k n => simp
                | UseSessionKey a n => simp
                | UpdateInviteCodePublicKey k sr => simp
          · rw [if_neg hw]
            simp [hw]
        rw [hstep]
        by_cases hproves : provesIdentityBlob expected rb
        · simp only [hproves, if_pos]
          constructor
          · intro _
            exact ⟨(ri, rb), List.mem_cons_self (ri, rb) rs, hlt, hproves⟩
          · intro _; trivial
        · simp only [hproves, if_neg, Bool.false_eq_true, not_false_iff]
          rw [ih hrs]
          constructor
          · rintro ⟨p, hp, h1, h2⟩
            exact ⟨p, List.mem_cons_of_mem (ri, rb) hp, h1, h2⟩
          · rintro ⟨p, hp, h1, h2⟩
            rcases List.mem_cons.mp hp with rfl | hp'
            · exact absurd h2 hproves
            · exact ⟨p, hp', h1, h2⟩

/-- C5: on an index-sorted call-data blob list,
`verify_and_update_nonce` accepts exactly when the action nonce strictly
exceeds the stored nonce, or equals it and a previous `"wallet"` blob of
the transaction decodes to a `VerifyIdentity`/`RegisterIdentity` naming
the record's identity; on success the record becomes the old record with
nonce `max(prior, action)`, and on failure it is unchanged. -/
theorem C5_verify_and_update_nonce (rec : AccountInfo) (nonce : Nat) (cd : Calldata)
    (hsort : List.Pairwise (fun p q => p.1 < q.1) cd.blobs) :
    (isOkE (rec.verify_and_update_nonce nonce cd).2 = true ↔
      (rec.nonce < nonce ∨
        (nonce = rec.nonce ∧
          ∃ p ∈ cd.blobs, p.1 < cd.index ∧ provesIdentityBlob rec.identity p.2))) ∧
    (isOkE (rec.verify_and_update_nonce nonce cd).2 = true →
      (rec.verify_and_update_nonce nonce cd).1 = { rec with nonce := max rec.nonce nonce }) ∧
    (isOkE (rec.verify_and_update_nonce nonce cd).2 = false →
      (rec.verify_and_update_nonce nonce cd).1 = rec) := by
  unfold AccountInfo.verify_and_update_nonce
  by_cases hlt : nonce < rec.nonce
  · rw [if_pos hlt]
    refine ⟨?_, ?_, ?_⟩
    · simp only [isOkE]
      constructor
      · intro hcontra; cases hcontra
      · intro hcase
        rcases hcase with h | ⟨h, _⟩ <;> omega
    · intro hcontra; cases hcontra
    · intro _; trivial
  · rw [if_neg hlt]
    by_cases heq : nonce = rec.nonce
    · rw [if_pos heq]
      cases hscan : AccountInfo.check_verify_identity_in_previous_blobs cd rec.identity
          cd.blobs with
      | error e =>
          refine ⟨?_, ?_, ?_⟩
          · simp only [isOkE]
            constructor
            · intro hcontra; cases hcontra
            · intro hcase
              rcases hcase with h | ⟨_, hex⟩
              · omega
              · have := (scan_ok_iff cd rec.identity cd.blobs hsort).mpr hex
                rw [hscan] at this
                cases this
          · intro hcontra; cases hcontra
          · intro _; trivial
      | ok u =>
          cases u
          refine ⟨?_, ?_, ?_⟩
          · simp only [isOkE]
            constructor
            · intro _
              right
              exact ⟨heq, (scan_ok_iff cd rec.identity cd.blobs hsort).mp hscan⟩
            · intro _; trivial
          · intro _
            have : max rec.nonce nonce = rec.nonce := by omega
            rw [this]
          · intro hcontra; cases hcontra
    · rw [if_neg heq]
      have hgt : rec.nonce < nonce := by omega
      refine ⟨?_, ?_, ?_⟩
      · simp only [isOkE]
        constructor
        · intro _
          exact Or.inl hgt
        · intro _; trivial
      · intro _
        have : max rec.nonce nonce = nonce := by omega
        rw [this]
      · intro hcontra; cases hcontra

def exC5Cd : Calldata :=
  { identity := "", tx_hash := [], tx_blob_count := 2, index := 1, tx_ctx := none,
    private_input := [],
    blobs := [(0, { contract_name := "wallet",
                    data := BlobData.action (WalletAction.VerifyIdentity "bob" 5) }),
              (1, { contract_name := "wallet",
                    data := BlobData.action (WalletAction.VerifyIdentity "bob" 5) })] }

/-- C5 witness: the equal-nonce rule fires for `"bob"` at nonce 5 backed
by a prior `VerifyIdentity` blob; the stored nonce becomes
`max(5, 5) = 5`. -/
theorem C5_verify_and_update_nonce_witness :
    isOkE (exBobRec.verify_and_update_nonce 5 exC5Cd).2 = true ∧
      (exBobRec.verify_and_update_nonce 5 exC5Cd).1 =
        { exBobRec with nonce := max exBobRec.nonce 5 } := by
  have h := C5_verify_and_update_nonce exBobRec 5 exC5Cd (by decide)
  have hok : isOkE (exBobRec.verify_and_update_nonce 5 exC5Cd).2 = true := by decide
  exact ⟨hok, h.2.1 hok⟩

/-! ## C6 — session key usage conditions -/

/-- C6: `use_session_key` succeeds exactly when the transaction context
is present, the call data carries all blobs of the transaction, the first
session key with the given public key exists, every other non-`secp256k1`
blob is allowed by that key's whitelist (when set), the key's lane pin
(when set) matches the transaction lane, and the key's expiration date is
strictly in the future; the record itself is never mutated. -/
theorem C6_use_session_key (rec : AccountInfo) (pk : String) (cd : Calldata) :
    (rec.use_session_key pk cd).1 = rec ∧
    (isOkE (rec.use_session_key pk cd).2 = true ↔
      ∃ ctx, cd.tx_ctx = some ctx ∧
        cd.blobs.length = cd.tx_blob_count ∧
        ∃ sk, rec.session_keys.find? (fun s => s.public_key = pk) = some sk ∧
          (∀ p ∈ cd.blobs, ¬ p.1 = cd.index → ¬ p.2.contract_name = "secp256k1" →
            ∀ wl, sk.whitelist = some wl → p.2.contract_name ∈ wl) ∧
          (∀ L, sk.lane_id = some L → L = ctx.lane_id) ∧
          ctx.timestamp < sk.expiration_date) := by
  unfold AccountInfo.use_session_key
  cases hctx : cd.tx_ctx with
  | none => exact ⟨rfl, by simp [isOkE]⟩
  | some ctx =>
      dsimp only
      by_cases hlen : cd.blobs.length ≠ cd.tx_blob_count
      · rw [if_pos hlen]
        exact ⟨rfl, by simp [isOkE, hlen]⟩
      · rw [if_neg hlen]
        rw [not_not] at hlen
        cases hfind : rec.session_keys.find? (fun s => s.public_key = pk) with
        | none => exact ⟨rfl, by simp [isOkE]⟩
        | some sk =>
            dsimp only
            cases hviol : cd.blobs.find? (fun p =>
                !(p.1 == cd.index) && !(p.2.contract_name == "secp256k1") &&
                  match sk.whitelist with
                  | some whitelist => !(whitelist.contains p.2.contract_name)
                  | none => false) with
            | some q =>
                refine ⟨rfl, ?_⟩
                simp only [isOkE]
                constructor
                · intro hcontra; cases hcontra
                · rintro ⟨ctx', hctx', _, sk', hsk', hwl, _, _⟩
                  exfalso
                  rw [Option.some.injEq] at hctx'
                  subst hctx'
                  rw [Option.some.injEq] at hsk'
                  subst hsk'
                  have hqmem := List.mem_of_find?_eq_some hviol
                  have hq := List.find?_some hviol
                  simp only [Bool.and_eq_true, Bool.not_eq_true', beq_eq_false_iff_ne,
                    ne_eq] at hq
                  obtain ⟨⟨hqi, hqs⟩, hqw⟩ := hq
                  cases hwlcase : sk.whitelist with
                  | none => rw [hwlcase] at hqw; cases hqw
                  | some wl =>
                      rw [hwlcase] at hqw
                      have hqm : ¬ q.2.contract_name ∈ wl := by simpa using hqw
                      exact hqm (hwl q hqmem hqi hqs wl hwlcase)
            | none =>
                by_cases hlane : sk.lane_id.isSome ∧ sk.lane_id ≠ some ctx.lane_id
                · rw [if_pos hlane]
                  refine ⟨rfl, ?_⟩
                  simp only [isOkE]
                  constructor
                  · intro hcontra; cases hcontra
                  · rintro ⟨ctx', hctx', _, sk', hsk', _, hlid, _⟩
                    exfalso
                    rw [Option.some.injEq] at hctx'
                    subst hctx'
                    rw [Option.some.injEq] at hsk'
                    subst hsk'
                    obtain ⟨hlsome, hlne⟩ := hlane
                    cases hl : sk.lane_id with
                    | none => rw [hl] at hlsome; cases hlsome
                    | some L =>
                        rw [hl] at hlne
                        exact hlne (by rw [hlid L hl])
                · rw [if_neg hlane]
                  by_cases hexp : ctx.timestamp < sk.expiration_date
                  · rw [if_pos hexp]
                    refine ⟨rfl, ?_⟩
                    simp only [isOkE, true_iff]
                    refine ⟨ctx, rfl, hlen, sk, rfl, ?_, ?_, hexp⟩
                    · intro p hp hpi hps wl hwl
                      have := List.find?_eq_none.mp hviol p hp
                      simp only [Bool.and_eq_true, Bool.not_eq_true', beq_eq_false_iff_ne,
                        ne_eq, not_and, hwl] at this
                      have h2 := this ⟨hpi, hps⟩
                      simpa using h2
                    · intro L hL
                      by_contra hne
                      exact hlane ⟨by rw [hL]; rfl, by rw [hL]; simp [hne]⟩
                  · rw [if_neg hexp]
                    refine ⟨rfl, ?_⟩
                    simp only [isOkE]
                    constructor
                    · intro hcontra; cases hcontra
                    · rintro ⟨ctx', hctx', _, sk', hsk', _, _, hexp'⟩
                      exfalso
                      rw [Option.some.injEq] at hctx'
                      subst hctx'
                      rw [Option.some.injEq] at hsk'
                      subst hsk'
                      exact hexp hexp'

/-! ## C8 — JWT blob verification -/

theorem parseAsciiNonce_ok :
    ∀ (l : Bytes) (acc n : Nat),
      (parseAsciiNonce l acc = Except.ok n ↔
        (∀ b ∈ l, isAsciiDigit b) ∧ l.foldl (fun a b => a * 10 + (b - 48)) acc = n)
  | [], acc, n => by
      simp [parseAsciiNonce]
  | b :: rest, acc, n => by
      by_cases hd : isAsciiDigit b
      · rw [show parseAsciiNonce (b :: rest) acc = parseAsciiNonce rest (acc * 10 + (b - 48))
            from by simp only [parseAsciiNonce]; rw [if_pos hd]]
        rw [parseAsciiNonce_ok rest (acc * 10 + (b - 48)) n]
        simp [hd]
      · rw [show parseAsciiNonce (b :: rest) acc =
            Except.error "Invalid nonce byte, expected ASCII digit"
            from by simp only [parseAsciiNonce]; rw [if_neg hd]]
        constructor
        · intro hcontra; cases hcontra
        · rintro ⟨hall, _⟩
          exact absurd (hall b (List.mem_cons_self b rest)) hd

/-- Characterization of `parse_blob_infos`: succeeds on payloads of at
least 46 bytes whose 13 bytes after the 33rd are ASCII digits, returning
the first 32 bytes and the digit value. -/
theorem parse_blob_infos_ok (data : Bytes) (mail : Bytes) (nonce : Nat) :
    (AuthMethod.parse_blob_infos data = Except.ok (mail, nonce) ↔
      46 ≤ data.length ∧ mail = data.take 32 ∧
        (∀ b ∈ (data.drop 33).take 13, isAsciiDigit b) ∧
        asciiVal ((data.drop 33).take 13) = nonce) := by
  unfold AuthMethod.parse_blob_infos
  by_cases h32 : data.length < 32
  · rw [if_pos h32]
    constructor
    · intro hcontra; cases hcontra
    · rintro ⟨h46, _⟩; omega
  · rw [if_neg h32]
    by_cases h33 : (data.drop 32).length < 1
    · rw [if_pos h33]
      rw [List.length_drop] at h33
      constructor
      · intro hcontra; cases hcontra
      · rintro ⟨h46, _⟩; omega
    · rw [if_neg h33]
      rw [List.length_drop] at h33
      by_cases h46 : ((data.drop 32).drop 1).length < 13
      · rw [if_pos h46]
        rw [List.length_drop, List.length_drop] at h46
        constructor
        · intro hcontra; cases hcontra
        · rintro ⟨hlen, _⟩; omega
      · rw [if_neg h46]
        rw [List.length_drop, List.length_drop] at h46
        have hdd : (data.drop 32).drop 1 = data.drop 33 := by
          rw [List.drop_drop]
        rw [hdd]
        cases hparse : parseAsciiNonce ((data.drop 33).take 13) 0 with
        | error e =>
            constructor
            · intro hcontra; cases hcontra
            · rintro ⟨_, _, hdig, hval⟩
              have : parseAsciiNonce ((data.drop 33).take 13) 0 = Except.ok nonce :=
                (parseAsciiNonce_ok _ 0 nonce).mpr ⟨hdig, hval⟩
              rw [hparse] at this
              cases this
        | ok v =>
            have hv := (parseAsciiNonce_ok ((data.drop 33).take 13) 0 v).mp hparse
            constructor
            · intro hok
              rw [Except.ok.injEq, Prod.mk.injEq] at hok
              obtain ⟨hm, hn⟩ := hok
              exact ⟨by omega, hm.symm, hv.1, by rw [← hn]; exact hv.2⟩
            · rintro ⟨_, hm, _, hval⟩
              have : v = nonce := by rw [← hv.2]; exact hval
              rw [this, hm]

theorem parse_blob_infos_ignores_tail (bs junk : Bytes) (hlen : bs.length = 46) :
    AuthMethod.parse_blob_infos (bs ++ junk) = AuthMethod.parse_blob_infos bs := by
  have h1 : (bs ++ junk).take 32 = bs.take 32 :=
    List.take_append_of_le_length (by omega)
  have h2 : (bs ++ junk).drop 32 = bs.drop 32 ++ junk :=
    List.drop_append_of_le_length (by omega)
  have h3 : (bs.drop 32 ++ junk).drop 1 = (bs.drop 32).drop 1 ++ junk :=
    List.drop_append_of_le_length (by rw [List.length_drop]; omega)
  have h4 : ((bs.drop 32).drop 1 ++ junk).take 13 = ((bs.drop 32).drop 1).take 13 :=
    List.take_append_of_le_length (by rw [List.length_drop, List.length_drop]; omega)
  unfold AuthMethod.parse_blob_infos
  simp only [h1, h2, h3, h4]
  rw [if_neg (show ¬ (bs ++ junk).length < 32 by
        simp only [List.length_append]; omega),
    if_neg (show ¬ bs.length < 32 by omega),
    if_neg (show ¬ (List.drop 32 bs ++ junk).length < 1 by
        simp only [List.length_append, List.length_drop]; omega),
    if_neg (show ¬ (List.drop 32 bs).length < 1 by
        simp only [List.length_drop]; omega),
    if_neg (show ¬ (List.drop 1 (List.drop 32 bs) ++ junk).length < 13 by
        simp only [List.length_append, List.length_drop]; omega),
    if_neg (show ¬ (List.drop 1 (List.drop 32 bs)).length < 13 by
        simp only [List.length_drop]; omega)]

/-- C8 (amended): `Jwt` verification succeeds exactly when the *first*
`check_jwt` blob of the call data has at least 46 bytes, its first 32
bytes equal the stored email hash, and its 13 bytes after one separator
byte are ASCII digits whose decimal value is the wallet blob's nonce;
bytes beyond byte 46 are ignored, and missing blobs, shorter blobs or
non-digit nonce bytes are rejected. -/
theorem C8_jwt_verification (C : Crypto) (hash : Bytes) (cd : Calldata) (nonce : Nat) :
    (isOkE ((AuthMethod.Jwt hash).verify C cd nonce) = true ↔
      ∃ p, cd.blobs.find? (fun q => q.2.contract_name = "check_jwt") = some p ∧
        46 ≤ p.2.data.rawBytes.length ∧
        p.2.data.rawBytes.take 32 = hash ∧
        (∀ b ∈ (p.2.data.rawBytes.drop 33).take 13, isAsciiDigit b) ∧
        asciiVal ((p.2.data.rawBytes.drop 33).take 13) = nonce) ∧
    (∀ bs junk : Bytes, bs.length = 46 →
      AuthMethod.parse_blob_infos (bs ++ junk) = AuthMethod.parse_blob_infos bs) := by
  refine ⟨?_, parse_blob_infos_ignores_tail⟩
  unfold AuthMethod.verify
  cases hfind : cd.blobs.find? (fun q => q.2.contract_name = "check_jwt") with
  | none => simp [isOkE]
  | some p =>
      dsimp only
      cases hparse : AuthMethod.parse_blob_infos p.2.data.rawBytes with
      | error e =>
          simp only [isOkE]
          constructor
          · intro hcontra; cases hcontra
          · rintro ⟨p', hp', h46, hhash, hdig, hval⟩
            rw [Option.some.injEq] at hp'
            subst hp'
            have : AuthMethod.parse_blob_infos p.2.data.rawBytes =
                Except.ok (p.2.data.rawBytes.take 32,
                  asciiVal ((p.2.data.rawBytes.drop 33).take 13)) :=
              (parse_blob_infos_ok _ _ _).mpr ⟨h46, rfl, hdig, rfl⟩
            rw [hparse] at this
            cases this
      | ok mn =>
          obtain ⟨mail, n⟩ := mn
          have hc := (parse_blob_infos_ok p.2.data.rawBytes mail n).mp hparse
          obtain ⟨h46, hmail, hdig, hval⟩ := hc
          dsimp only
          by_cases hh : mail ≠ hash
          · rw [if_pos hh]
            simp only [isOkE]
            constructor
            · intro hcontra; cases hcontra
            · rintro ⟨p', hp', _, hhash, _, _⟩
              exfalso
              rw [Option.some.injEq] at hp'
              subst hp'
              exact hh (by rw [hmail, hhash])
          · rw [if_neg hh]
            rw [not_not] at hh
            by_cases hn : n ≠ nonce
            · rw [if_pos hn]
              simp only [isOkE]
              constructor
              · intro hcontra; cases hcontra
              · rintro ⟨p', hp', _, _, _, hval'⟩
                exfalso
                rw [Option.some.injEq] at hp'
                subst hp'
                exact hn (by rw [← hval, hval'])
            · rw [if_neg hn]
              rw [not_not] at hn
              simp only [isOkE, true_iff]
              exact ⟨p, rfl, h46, by rw [← hmail, hh], hdig, by rw [hval, hn]⟩

def exJwtHash : Bytes := List.replicate 32 7

/-- A well-formed 46-byte `check_jwt` payload for nonce 5. -/
def exJwtGood : Bytes := List.replicate 32 7 ++ [58] ++ (List.replicate 12 48 ++ [53])

def exJwtCd : Calldata :=
  { identity := "", tx_hash := [], tx_blob_count := 2, index := 0, tx_ctx := none,
    private_input := [],
    blobs := [(0, { contract_name := "check_jwt", data := BlobData.rawB [1, 2, 3] }),
              (1, { contract_name := "check_jwt", data := BlobData.rawB exJwtGood })] }

/-- C8 counterexample: the call data *contains* a `check_jwt` blob
satisfying every condition of the claim (blob #1), yet verification
fails, because the code only inspects the first `check_jwt` blob (here a
3-byte junk payload at index 0). -/
theorem C8_counterexample :
    isOkE ((AuthMethod.Jwt exJwtHash).verify cryptoX exJwtCd 5) = false ∧
      ∃ p ∈ exJwtCd.blobs, p.2.contract_name = "check_jwt" ∧
        46 ≤ p.2.data.rawBytes.length ∧
        p.2.data.rawBytes.take 32 = exJwtHash ∧
        (∀ b ∈ (p.2.data.rawBytes.drop 33).take 13, isAsciiDigit b) ∧
        asciiVal ((p.2.data.rawBytes.drop 33).take 13) = 5 := by
  decide

/-! ## C9 — session keys remain pairwise distinct -/

theorem add_session_key_nodup (rec : AccountInfo) (key : String) (e : Nat)
    (wl : Option (List String)) (ln : Option String)
    (hnd : (rec.session_keys.map SessionKey.public_key).Nodup) :
    (((rec.add_session_key key e wl ln).1.session_keys.map SessionKey.public_key)).Nodup := by
  unfold AccountInfo.add_session_key
  by_cases hdup : rec.session_keys.any (fun sk => sk.public_key = key)
  · rw [if_pos hdup]
    exact hnd
  · rw [if_neg hdup]
    dsimp only
    rw [List.map_append]
    simp only [List.map_cons, List.map_nil]
    apply List.Nodup.append hnd (List.nodup_singleton key)
    intro x hx hx'
    rw [List.mem_singleton] at hx'
    subst hx'
    rcases List.mem_map.mp hx with ⟨sk, hsk, hpk⟩
    rw [List.any_eq_true] at hdup
    exact hdup ⟨sk, hsk, by simp [hpk]⟩

theorem remove_session_key_nodup (rec : AccountInfo) (key : String)
    (hnd : (rec.session_keys.map SessionKey.public_key).Nodup) :
    (((rec.remove_session_key key).1.session_keys.map SessionKey.public_key)).Nodup := by
  unfold AccountInfo.remove_session_key
  by_cases hlen : (rec.session_keys.filter (fun sk => sk.public_key ≠ key)).length =
      rec.session_keys.length
  · rw [if_pos hlen]
    exact hnd
  · rw [if_neg hlen]
    dsimp only
    exact hnd.sublist (List.Sublist.map SessionKey.public_key (List.filter_sublist _))

theorem verify_and_update_nonce_keys (rec : AccountInfo) (n : Nat) (cd : Calldata) :
    (rec.verify_and_update_nonce n cd).1.session_keys = rec.session_keys := by
  unfold AccountInfo.verify_and_update_nonce
  by_cases h1 : n < rec.nonce
  · rw [if_pos h1]
  · rw [if_neg h1]
    by_cases h2 : n = rec.nonce
    · rw [if_pos h2]
      cases AccountInfo.check_verify_identity_in_previous_blobs cd rec.identity cd.blobs <;> rfl
    · rw [if_neg h2]

theorem use_session_key_same (rec : AccountInfo) (pk : String) (cd : Calldata) :
    (rec.use_session_key pk cd).1 = rec := by
  unfold AccountInfo.use_session_key
  cases cd.tx_ctx with
  | none => rfl
  | some ctx =>
      dsimp only
      by_cases hlen : cd.blobs.length ≠ cd.tx_blob_count
      · rw [if_pos hlen]
      · rw [if_neg hlen]
        cases rec.session_keys.find? (fun s => s.public_key = pk) with
        | none => rfl
        | some sk =>
            dsimp only
            cases cd.blobs.find? (fun p =>
                !(p.1 == cd.index) && !(p.2.contract_name == "secp256k1") &&
                  match sk.whitelist with
                  | some whitelist => !(whitelist.contains p.2.contract_name)
                  | none => false) with
            | some q => rfl
            | none =>
                dsimp only
                by_cases hlane : sk.lane_id.isSome ∧ sk.lane_id ≠ some ctx.lane_id
                · rw [if_pos hlane]
                · rw [if_neg hlane]
                  by_cases hexp : sk.expiration_date > ctx.timestamp
                  · rw [if_pos hexp]
                  · rw [if_neg hexp]

theorem register_identity_keys (rec : AccountInfo) (acct : String) (n : Nat)
    (am : AuthMethod) :
    (rec.register_identity acct n am).1.session_keys = rec.session_keys := by
  unfold AccountInfo.register_identity
  by_cases h1 : rec.identity ≠ acct
  · rw [if_pos h1]
  · rw [if_neg h1]
    by_cases h2 : rec.auth_method ≠ AuthMethod.Uninitialized
    · rw [if_pos h2]
    · rw [if_neg h2]

theorem handle_registration_keys (C : Crypto) (rec : AccountInfo) (acct : String) (n : Nat)
    (am : AuthMethod) (cd : Calldata) :
    (rec.handle_registration C acct n am cd).1.session_keys = rec.session_keys := by
  unfold AccountInfo.handle_registration
  cases am.verify C cd n with
  | error e => rfl
  | ok _ => exact register_identity_keys rec acct n am

theorem handle_session_key_usage_keys (C : Crypto) (rec : AccountInfo) (acct : String)
    (n : Nat) (cd : Calldata) :
    (rec.handle_session_key_usage C acct n cd).1.session_keys = rec.session_keys := by
  unfold AccountInfo.handle_session_key_usage
  by_cases hid : rec.identity ≠ acct
  · rw [if_pos hid]
  · rw [if_neg hid]
    cases checkSecp256k1 C cd (strBytes (toString n)) with
    | error e => rfl
    | ok blob =>
        dsimp only
        rcases hv : rec.verify_and_update_nonce n cd with ⟨rec', res⟩
        have hkeys : rec'.session_keys = rec.session_keys := by
          have := verify_and_update_nonce_keys rec n cd
          rw [hv] at this
          exact this
        cases res with
        | error e => exact hkeys
        | ok _ =>
            dsimp only
            rw [use_session_key_same rec' (hexEncode blob.public_key) cd]
            exact hkeys

theorem handle_authenticated_action_nodup (C : Crypto) (rec : AccountInfo)
    (action : WalletAction) (cd : Calldata)
    (hnd : (rec.session_keys.map SessionKey.public_key).Nodup) :
    (((rec.handle_authenticated_action C action cd).1.session_keys.map
      SessionKey.public_key)).Nodup := by
  unfold AccountInfo.handle_authenticated_action
  cases action with
  | VerifyIdentity account nonce =>
      dsimp only
      cases rec.auth_method.verify C cd nonce with
      | error e => exact hnd
      | ok _ =>
          dsimp only
          by_cases hid : rec.identity ≠ account
          · rw [if_pos hid]; exact hnd
          · rw [if_neg hid]
            rw [verify_and_update_nonce_keys rec nonce cd]
            exact hnd
  | AddSessionKey account key e wl ln nonce =>
      dsimp only
      cases rec.auth_method.verify C cd nonce with
      | error er => exact hnd
      | ok _ =>
          dsimp only
          rcases hv : rec.verify_and_update_nonce nonce cd with ⟨rec', res⟩
          have hkeys : rec'.session_keys = rec.session_keys := by
            have := verify_and_update_nonce_keys rec nonce cd
            rw [hv] at this
            exact this
          have hnd' : (rec'.session_keys.map SessionKey.public_key).Nodup := by
            rw [hkeys]; exact hnd
          cases res with
          | error er => exact hnd'
          | ok _ =>
              dsimp only
              by_cases hid : rec'.identity ≠ account
              · rw [if_pos hid]; exact hnd'
              · rw [if_neg hid]
                exact add_session_key_nodup rec' key e wl ln hnd'
  | RemoveSessionKey account key nonce =>
      dsimp only
      cases rec.auth_method.verify C cd nonce with
      | error er => exact hnd
      | ok _ =>
          dsimp only
          rcases hv : rec.verify_and_update_nonce nonce cd with ⟨rec', res⟩
          have hkeys : rec'.session_keys = rec.session_keys := by
            have := verify_and_update_nonce_keys rec nonce cd
            rw [hv] at this
            exact this
          have hnd' : (rec'.session_keys.map SessionKey.public_key).Nodup := by
            rw [hkeys]; exact hnd
          cases res with
          | error er => exact hnd'
          | ok _ => exact remove_session_key_nodup rec' key hnd'
  | RegisterIdentity a n s am i => dsimp only; exact hnd
  | UseSessionKey a n => dsimp only; exact hnd
  | UpdateInviteCodePublicKey k r => dsimp only; exact hnd

/-- C9: session-key public keys stay pairwise distinct under every wallet
action applied to an account record — `add_session_key` rejects
duplicates, `remove_session_key` only removes, and no other operation
touches the list; registration leaves the (initially empty) list
unchanged. -/
theorem C9_session_key_distinctness (C : Crypto) (pk : Bytes) (a : WalletAction)
    (cd : Calldata) (rec : AccountInfo)
    (hnd : (rec.session_keys.map SessionKey.public_key).Nodup) :
    (((applyWalletAction C pk a cd rec).1.session_keys.map SessionKey.public_key)).Nodup ∧
      ∀ (acct : String) (n : Nat) (am : AuthMethod),
        (rec.register_identity acct n am).1.session_keys = rec.session_keys := by
  refine ⟨?_, fun acct n am => register_identity_keys rec acct n am⟩
  unfold applyWalletAction
  cases a with
  | RegisterIdentity account nonce salt am invite =>
      dsimp only
      cases check_for_invite_code C account invite cd pk with
      | error e => exact hnd
      | ok _ =>
          dsimp only
          rw [handle_registration_keys C rec account nonce am cd]
          exact hnd
  | UseSessionKey account nonce =>
      dsimp only
      rw [handle_session_key_usage_keys C rec account nonce cd]
      exact hnd
  | VerifyIdentity account nonce =>
      dsimp only
      exact handle_authenticated_action_nodup C rec _ cd hnd
  | AddSessionKey account key e wl ln nonce =>
      dsimp only
      exact handle_authenticated_action_nodup C rec _ cd hnd
  | RemoveSessionKey account key nonce =>
      dsimp only
      exact handle_authenticated_action_nodup C rec _ cd hnd
  | UpdateInviteCodePublicKey k r =>
      dsimp only
      exact handle_authenticated_action_nodup C rec _ cd hnd

/-- C9 witness: adding the duplicate key `"k1"` to `"bob"` fails and the
key list keeps its single, distinct entry. -/
theorem C9_session_key_distinctness_witness :
    (((applyWalletAction cryptoX DEFAULT_INVITE_CODE_PUBLIC_KEY exAddDupAction exAddDupCd
        exBobRec).1.session_keys.map SessionKey.public_key)).Nodup ∧
      ∀ (acct : String) (n : Nat) (am : AuthMethod),
        (exBobRec.register_identity acct n am).1.session_keys = exBobRec.session_keys :=
  C9_session_key_distinctness cryptoX DEFAULT_INVITE_CODE_PUBLIC_KEY exAddDupAction exAddDupCd
    exBobRec (by decide)

/-! ## C2 — failure semantics of the host -/

theorem as_hyle_output_fail (init next : Commitment) (res : Except String Bytes)
    (hfail : (as_hyle_output init next res).success = false) :
    (as_hyle_output init next res).next_state_commitment = init ∧
      (as_hyle_output init next res).initial_state_commitment = init := by
  cases res with
  | ok out => simp [as_hyle_output] at hfail
  | error e => exact ⟨rfl, rfl⟩

/-- C2 (amended, commitment part): whenever the host returns a
`success = false` output, the reported next commitment equals the
reported initial commitment, which is the pre-state commitment. -/
theorem C2_failure_commitment (C : Crypto) (w : Wallet) (cd : Calldata) (w' : Wallet)
    (out : HyleOutput)
    (h : w.actual_handle C cd = (w', Except.ok out))
    (hfail : out.success = false) :
    out.next_state_commitment = out.initial_state_commitment ∧
      out.initial_state_commitment = w.get_state_commitment := by
  unfold Wallet.actual_handle at h
  cases ha : parse_raw_calldata cd with
  | error e =>
      rw [ha] at h
      simp at h
  | ok action =>
      rw [ha] at h
      dsimp only at h
      cases action with
      | UpdateInviteCodePublicKey k r =>
          dsimp only [WalletAction.account?] at h
          by_cases hk : ¬ w.invite_code_public_key = DEFAULT_INVITE_CODE_PUBLIC_KEY
          · rw [if_pos hk] at h
            simp at h
          · rw [if_neg hk] at h
            rw [Prod.mk.injEq, Except.ok.injEq] at h
            obtain ⟨hw, hout⟩ := h
            subst hout
            simp [as_hyle_output] at hfail
      | RegisterIdentity account nonce salt am invite =>
          dsimp only [WalletAction.account?] at h
          cases hi : check_for_invite_code C account invite cd w.invite_code_public_key with
          | error e =>
              rw [hi] at h
              simp at h
          | ok u =>
              rw [hi] at h
              dsimp only at h
              rcases hr : ({ smtGet w.smt (AccountInfo.compute_key account) with
                  identity := account } : AccountInfo).handle_registration C account nonce am cd
                with ⟨rec', res⟩
              rw [hr] at h
              dsimp only at h
              rw [Prod.mk.injEq, Except.ok.injEq] at h
              obtain ⟨hw, hout⟩ := h
              subst hout
              have hx := as_hyle_output_fail _ _ _ hfail
              exact ⟨hx.1.trans hx.2.symm, hx.2⟩
      | UseSessionKey account nonce =>
          dsimp only [WalletAction.account?] at h
          rcases hr : ({ smtGet w.smt (AccountInfo.compute_key account) with
              identity := account } : AccountInfo).handle_session_key_usage C account nonce cd
            with ⟨rec', res⟩
          rw [hr] at h
          dsimp only at h
          rw [Prod.mk.injEq, Except.ok.injEq] at h
          obtain ⟨hw, hout⟩ := h
          subst hout
          have hx := as_hyle_output_fail _ _ _ hfail
          exact ⟨hx.1.trans hx.2.symm, hx.2⟩
      | VerifyIdentity account nonce =>
          dsimp only [WalletAction.account?] at h
          rcases hr : ({ smtGet w.smt (AccountInfo.compute_key account) with
              identity := account } : AccountInfo).handle_authenticated_action C
              (WalletAction.VerifyIdentity account nonce) cd with ⟨rec', res⟩
          rw [hr] at h
          dsimp only at h
          rw [Prod.mk.injEq, Except.ok.injEq] at h
          obtain ⟨hw, hout⟩ := h
          subst hout
          have hx := as_hyle_output_fail _ _ _ hfail
          exact ⟨hx.1.trans hx.2.symm, hx.2⟩
      | AddSessionKey account key e wl ln nonce =>
          dsimp only [WalletAction.account?] at h
          rcases hr : ({ smtGet w.smt (AccountInfo.compute_key account) with
              identity := account } : AccountInfo).handle_authenticated_action C
              (WalletAction.AddSessionKey account key e wl ln nonce) cd with ⟨rec', res⟩
          rw [hr] at h
          dsimp only at h
          rw [Prod.mk.injEq, Except.ok.injEq] at h
          obtain ⟨hw, hout⟩ := h
          subst hout
          have hx := as_hyle_output_fail _ _ _ hfail
          exact ⟨hx.1.trans hx.2.symm, hx.2⟩
      | RemoveSessionKey account key nonce =>
          dsimp only [WalletAction.account?] at h
          rcases hr : ({ smtGet w.smt (AccountInfo.compute_key account) with
              identity := account } : AccountInfo).handle_authenticated_action C
              (WalletAction.RemoveSessionKey account key nonce) cd with ⟨rec', res⟩
          rw [hr] at h
          dsimp only at h
          rw [Prod.mk.injEq, Except.ok.injEq] at h
          obtain ⟨hw, hout⟩ := h
          subst hout
          have hx := as_hyle_output_fail _ _ _ hfail
          exact ⟨hx.1.trans hx.2.symm, hx.2⟩

/-- Projection of the host result on the output channel. -/
def hostOutput (r : Wallet × Except String HyleOutput) : Option HyleOutput :=
  match r.2 with
  | Except.ok o => some o
  | Except.error _ => none

/-- C2 counterexample: a failing `AddSessionKey` (duplicate key `"k1"`,
fresh nonce 6) returns `success = false`, yet the SMT record's nonce
advanced from 5 to 6 — the tree *is* mutated by a failing action. -/
theorem C2_counterexample :
    (hostOutput (exBobWallet.actual_handle cryptoX exAddDupCd)).map HyleOutput.success =
        some false ∧
      (smtGet exBobWallet.smt (AccountInfo.compute_key "bob")).nonce = 5 ∧
      (smtGet (exBobWallet.actual_handle cryptoX exAddDupCd).1.smt
        (AccountInfo.compute_key "bob")).nonce = 6 := by
  refine ⟨?_, ?_, ?_⟩ <;> decide

/-- The concrete failing output of the C2 scenario. -/
def exC2Out : HyleOutput :=
  match (exBobWallet.actual_handle cryptoX exAddDupCd).2 with
  | Except.ok o => o
  | Except.error _ =>
      { initial_state_commitment := Commitment.raw [],
        next_state_commitment := Commitment.raw [], program_outputs := [], success := true }

/-- C2 witness: the failing duplicate-`AddSessionKey` output reports the
pre-state commitment as its next commitment. -/
theorem C2_failure_commitment_witness :
    exC2Out.next_state_commitment = exC2Out.initial_state_commitment ∧
      exC2Out.initial_state_commitment = exBobWallet.get_state_commitment :=
  C2_failure_commitment cryptoX exBobWallet exAddDupCd
    (exBobWallet.actual_handle cryptoX exAddDupCd).1 exC2Out (by rfl) (by rfl)

/-! ## C3 — guest behaviour on failing actions -/

/-- C3 (amended): whenever the guest's `execute` returns a plain error,
the view's commitment is left at the pre-state value — the new root is
*not* recomputed from the (possibly partially mutated) leaf. -/
theorem C3_guest_error_commitment (C : Crypto) (view : WalletZkView) (cd : Calldata)
    (view' : WalletZkView) (e : String)
    (h : view.execute C cd = (view', GuestOut.err e)) :
    view'.commitment = view.commitment := by
  unfold WalletZkView.execute at h
  split at h
  case h_1 => simp at h; rw [← h.1]
  case h_2 action =>
    split at h
    case h_1 k r =>
      split at h
      · simp at h; rw [← h.1]
      · simp at h
    case h_2 =>
      split at h
      case h_1 => simp at h
      case h_2 pd =>
        dsimp only at h
        split at h
        · simp at h
        · split at h
          · simp at h
          · split at h
            case h_1 rec' e' heq => simp at h; rw [← h.1]
            case h_2 rec' res heq => simp at h

def exBobView : WalletZkView := exBobWallet.build_commitment_metadata exAddDupBlob

/-- C3 counterexample: the duplicate-`AddSessionKey` run fails after the
witness checks passed (auth and nonce succeeded, mutating the leaf's
nonce to 6); the guest returns the error with the commitment left at the
pre-state value — which differs from the commitment the claim says it
recomputes from the current (mutated) leaf. -/
theorem C3_counterexample :
    (exBobView.execute cryptoX exAddDupCd).2 = GuestOut.err "Session key already exists" ∧
      (exBobView.execute cryptoX exAddDupCd).1.commitment = exBobView.commitment ∧
      ¬ exBobView.commitment =
        get_state_commitment
          (computeRootAux (smtMerkleProof exBobWallet.smt (AccountInfo.compute_key "bob"))
            (AccountInfo.compute_key "bob")
            ({ exBobRec with nonce := 6 } : AccountInfo).to_h256)
          DEFAULT_INVITE_CODE_PUBLIC_KEY := by
  refine ⟨?_, ?_, ?_⟩ <;> decide

/-- C3 witness: the amended statement applied to the concrete failing
duplicate-`AddSessionKey` guest run. -/
theorem C3_guest_error_commitment_witness :
    (exBobView.execute cryptoX exAddDupCd).1.commitment = exBobView.commitment :=
  C3_guest_error_commitment cryptoX exBobView exAddDupCd
    (exBobView.execute cryptoX exAddDupCd).1 "Session key already exists" (by rfl)

/-! ## C1 — host/guest commitment equivalence -/

/-- The non-administrative tail of `WalletZkView::execute` (lib.rs lines
67-135), shared by the five account-targeting actions. -/
def guestTail (C : Crypto) (self : WalletZkView) (cd : Calldata) (action : WalletAction) :
    WalletZkView × GuestOut :=
  match self.partial_data.getLast? with
  | none => (self, GuestOut.panic "No partial data available for the contract state")
  | some pd =>
      let self' : WalletZkView := { self with partial_data := self.partial_data.dropLast }
      let account_key := AccountInfo.compute_key pd.account_info.identity
      let root := computeRootAux pd.proof account_key pd.account_info.to_h256
      if self'.commitment ≠ get_state_commitment root self'.invite_code_public_key then
        (self', GuestOut.panic "State commitment mismatch")
      else if ¬ verifyProof pd.proof root account_key pd.account_info.to_h256 then
        (self', GuestOut.panic "Proof verification failed for the contract state")
      else
        match applyWalletAction C self'.invite_code_public_key action cd
            pd.account_info with
        | (_, Except.error e) => (self', GuestOut.err e)
        | (account_info', Except.ok res) =>
            let new_root := computeRootAux pd.proof account_key account_info'.to_h256
            ({ self' with
                commitment :=
                  get_state_commitment new_root self'.invite_code_public_key },
              GuestOut.ok (strBytes res))

theorem execute_eq_tail (C : Crypto) (v : WalletZkView) (cd : Calldata) (a : WalletAction)
    (acc : String)
    (hparse : parse_raw_calldata cd = Except.ok a)
    (hacc : a.account? = some acc) :
    v.execute C cd = guestTail C v cd a := by
  unfold WalletZkView.execute
  rw [hparse]
  cases a with
  | UpdateInviteCodePublicKey k r => simp [WalletAction.account?] at hacc
  | RegisterIdentity account nonce salt am invite => rfl
  | VerifyIdentity account nonce => rfl
  | AddSessionKey account key e wl ln nonce => rfl
  | RemoveSessionKey account key nonce => rfl
  | UseSessionKey account nonce => rfl

theorem build_commitment_metadata_nonadmin (w : Wallet) (blob : Blob) (a : WalletAction)
    (acc : String) (hdec : decodeAction blob.data = some a) (hacc : a.account? = some acc) :
    w.build_commitment_metadata blob =
      { commitment := w.get_state_commitment,
        invite_code_public_key := w.invite_code_public_key,
        partial_data :=
          [{ proof := smtMerkleProof w.smt (AccountInfo.compute_key acc),
             account_info :=
               { smtGet w.smt (AccountInfo.compute_key acc) with identity := acc } }] } := by
  unfold Wallet.build_commitment_metadata
  rw [hdec]
  dsimp only
  rw [hacc]

theorem guestTail_run (C : Crypto) (cd : Calldata) (a : WalletAction) (pk : Bytes)
    (comm : Commitment) (prf : List Hash) (rec0 : AccountInfo)
    (hcomm : comm =
      get_state_commitment
        (computeRootAux prf (AccountInfo.compute_key rec0.identity) rec0.to_h256) pk) :
    guestTail C
        { commitment := comm, invite_code_public_key := pk,
          partial_data := [{ proof := prf, account_info := rec0 }] } cd a =
      (match applyWalletAction C pk a cd rec0 with
        | (_, Except.error e) =>
            ({ commitment := comm, invite_code_public_key := pk, partial_data := [] },
              GuestOut.err e)
        | (rec', Except.ok res) =>
            ({ commitment :=
                  get_state_commitment
                    (computeRootAux prf (AccountInfo.compute_key rec0.identity) rec'.to_h256)
                    pk,
               invite_code_public_key := pk, partial_data := [] },
              GuestOut.ok (strBytes res))) := by
  unfold guestTail
  rw [show ([{ proof := prf, account_info := rec0 }] :
      List PartialWalletData).getLast? = some { proof := prf, account_info := rec0 } from rfl]
  dsimp only
  rw [if_neg (fun hne => hne (by rw [hcomm]))]
  rw [if_neg (fun hnv => hnv (by unfold verifyProof; simp))]
  rcases applyWalletAction C pk a cd rec0 with ⟨rec', res⟩
  cases res with
  | error e => rfl
  | ok res => rfl

theorem host_handle_out (C : Crypto) (w : Wallet) (cd : Calldata) (a : WalletAction)
    (acc : String) (rec' : AccountInfo) (res : Except String String) (w' : Wallet)
    (out : HyleOutput)
    (hparse : parse_raw_calldata cd = Except.ok a)
    (hacc : a.account? = some acc)
    (happly : applyWalletAction C w.invite_code_public_key a cd
        { smtGet w.smt (AccountInfo.compute_key acc) with identity := acc } = (rec', res))
    (hhandle : w.actual_handle C cd = (w', Except.ok out)) :
    out = as_hyle_output w.get_state_commitment
      (get_state_commitment
        (smtRoot (smtUpdate w.smt (AccountInfo.compute_key acc) rec'))
        w.invite_code_public_key)
      (res.map strBytes) := by
  unfold Wallet.actual_handle at hhandle
  rw [hparse] at hhandle
  dsimp only at hhandle
  rw [hacc] at hhandle
  dsimp only at hhandle
  unfold applyWalletAction at happly
  cases a with
  | UpdateInviteCodePublicKey k r => simp [WalletAction.account?] at hacc
  | RegisterIdentity account nonce salt am invite =>
      simp only [WalletAction.account?, Option.some.injEq] at hacc
      subst hacc
      dsimp only at happly hhandle
      cases hi : check_for_invite_code C account invite cd w.invite_code_public_key with
      | error e =>
          rw [hi] at hhandle
          simp at hhandle
      | ok u =>
          rw [hi] at hhandle happly
          dsimp only at hhandle happly
          rw [happly] at hhandle
          dsimp only at hhandle
          rw [Prod.mk.injEq, Except.ok.injEq] at hhandle
          rw [← hhandle.2]
          rfl
  | UseSessionKey account nonce =>
      simp only [WalletAction.account?, Option.some.injEq] at hacc
      subst hacc
      dsimp only at happly hhandle
      rw [happly] at hhandle
      dsimp only at hhandle
      rw [Prod.mk.injEq, Except.ok.injEq] at hhandle
      rw [← hhandle.2]
      rfl
  | VerifyIdentity account nonce =>
      simp only [WalletAction.account?, Option.some.injEq] at hacc
      subst hacc
      dsimp only at happly hhandle
      rw [happly] at hhandle
      dsimp only at hhandle
      rw [Prod.mk.injEq, Except.ok.injEq] at hhandle
      rw [← hhandle.2]
      rfl
  | AddSessionKey account key e wl ln nonce =>
      simp only [WalletAction.account?, Option.some.injEq] at hacc
      subst hacc
      dsimp only at happly hhandle
      rw [happly] at hhandle
      dsimp only at hhandle
      rw [Prod.mk.injEq, Except.ok.injEq] at hhandle
      rw [← hhandle.2]
      rfl
  | RemoveSessionKey account key nonce =>
      simp only [WalletAction.account?, Option.some.injEq] at hacc
      subst hacc
      dsimp only at happly hhandle
      rw [happly] at hhandle
      dsimp only at hhandle
      rw [Prod.mk.injEq, Except.ok.injEq] at hhandle
      rw [← hhandle.2]
      rfl

/-- C1 (amended): for every *non-administrative* action (the five
account-targeting variants), on well-formed host state, the commitment
reported by the guest executor run on the host-built witness is bitwise
identical to the `next_state_commitment` of the host's output — for
successful as well as failing transitions — and the guest does not
panic. -/
theorem C1_host_guest_commitment (C : Crypto) (w : Wallet) (cd : Calldata) (i : Nat)
    (blob : Blob) (a : WalletAction) (acc : String) (w' : Wallet) (out : HyleOutput)
    (hwf : storeWF w.smt)
    (hcol : ∀ p ∈ w.smt, p.1 = AccountInfo.compute_key acc → p.2.identity = acc)
    (hblob : cd.blobs.find? (fun p => p.1 = cd.index) = some (i, blob))
    (hdec : decodeAction blob.data = some a)
    (hacc : a.account? = some acc)
    (hhandle : w.actual_handle C cd = (w', Except.ok out)) :
    ((w.build_commitment_metadata blob).execute C cd).1.commitment =
        out.next_state_commitment ∧
      ∀ msg, ¬ ((w.build_commitment_metadata blob).execute C cd).2 = GuestOut.panic msg := by
  have hparse : parse_raw_calldata cd = Except.ok a := by
    unfold parse_raw_calldata blobAt
    rw [hblob]
    simp [hdec]
  rcases happly : applyWalletAction C w.invite_code_public_key a cd
      { smtGet w.smt (AccountInfo.compute_key acc) with identity := acc } with ⟨rec', res⟩
  have hout := host_handle_out C w cd a acc rec' res w' out hparse hacc happly hhandle
  rw [execute_eq_tail C _ cd a acc hparse hacc]
  rw [build_commitment_metadata_nonadmin w blob a acc hdec hacc]
  have hcomm : w.get_state_commitment =
      get_state_commitment
        (computeRootAux (smtMerkleProof w.smt (AccountInfo.compute_key acc))
          (AccountInfo.compute_key
            ({ smtGet w.smt (AccountInfo.compute_key acc) with
                identity := acc } : AccountInfo).identity)
          ({ smtGet w.smt (AccountInfo.compute_key acc) with
              identity := acc } : AccountInfo).to_h256)
        w.invite_code_public_key := by
    rw [show ({ smtGet w.smt (AccountInfo.compute_key acc) with
        identity := acc } : AccountInfo).identity = acc from rfl]
    rw [computeRoot_get_eq_root w.smt acc hwf hcol]
    rfl
  rw [guestTail_run C cd a w.invite_code_public_key w.get_state_commitment
    (smtMerkleProof w.smt (AccountInfo.compute_key acc))
    { smtGet w.smt (AccountInfo.compute_key acc) with identity := acc } hcomm]
  rw [happly]
  cases res with
  | ok msg =>
      constructor
      · rw [hout]
        dsimp only [as_hyle_output, Except.map]
        rw [show AccountInfo.compute_key ({ smtGet w.smt (AccountInfo.compute_key acc) with
            identity := acc } : AccountInfo).identity = AccountInfo.compute_key acc from rfl]
        rw [computeRoot_smtProof w.smt (AccountInfo.compute_key acc) rec'.to_h256
          (compute_key_length acc) hwf.1,
          ← smtRoot_update w.smt (AccountInfo.compute_key acc) rec'
            (compute_key_length acc) hwf.1]
      · intro msg' hcontra
        cases hcontra
  | error e =>
      constructor
      · rw [hout]
        rfl
      · intro msg' hcontra
        cases hcontra

def exEmptyWallet : Wallet :=
  { invite_code_public_key := DEFAULT_INVITE_CODE_PUBLIC_KEY, smt := [], salts := [] }

def exUpdBadAction : WalletAction :=
  WalletAction.UpdateInviteCodePublicKey (List.replicate 33 4) (List.replicate 32 1)

def exUpdBadBlob : Blob := { contract_name := "wallet", data := BlobData.action exUpdBadAction }

def exUpdBadCd : Calldata :=
  { identity := "", tx_hash := [], tx_blob_count := 1, index := 0, tx_ctx := none,
    private_input := [], blobs := [(0, exUpdBadBlob)] }

/-- C1 counterexample: the administrative `UpdateInviteCodePublicKey`
with `smt_root = [1; 32]` *succeeds on both executors* against the empty
wallet, but the guest derives its commitment from the action's
`smt_root` field while the host uses its actual root (`[0; 32]`): the
two reported commitments differ. -/
theorem C1_counterexample :
    (hostOutput (exEmptyWallet.actual_handle cryptoX exUpdBadCd)).map HyleOutput.success =
        some true ∧
      (hostOutput (exEmptyWallet.actual_handle cryptoX exUpdBadCd)).map
          HyleOutput.next_state_commitment =
        some (get_state_commitment (smtRoot exEmptyWallet.smt) (List.replicate 33 4)) ∧
      ((exEmptyWallet.build_commitment_metadata exUpdBadBlob).execute cryptoX exUpdBadCd).2 =
        GuestOut.ok (strBytes "Updated public key") ∧
      ((exEmptyWallet.build_commitment_metadata exUpdBadBlob).execute cryptoX
          exUpdBadCd).1.commitment =
        get_state_commitment (Hash.bytes (List.replicate 32 1)) (List.replicate 33 4) ∧
      ¬ get_state_commitment (Hash.bytes (List.replicate 32 1)) (List.replicate 33 4) =
        get_state_commitment (smtRoot exEmptyWallet.smt) (List.replicate 33 4) := by
  refine ⟨?_, ?_, ?_, ?_, ?_⟩ <;> decide

def exVerifyAction : WalletAction := WalletAction.VerifyIdentity "bob" 6

def exVerifyBlob : Blob := { contract_name := "wallet", data := BlobData.action exVerifyAction }

def exVerifyCd : Calldata :=
  { identity := "", tx_hash := [], tx_blob_count := 2, index := 0, tx_ctx := none,
    private_input := [],
    blobs := [(0, exVerifyBlob),
              (1, { contract_name := "check_secret", data := BlobData.rawB exPwBytes })] }

/-- The concrete host output of the C1 witness scenario. -/
def exC1Out : HyleOutput :=
  match (exBobWallet.actual_handle cryptoX exVerifyCd).2 with
  | Except.ok o => o
  | Except.error _ =>
      { initial_state_commitment := Commitment.raw [],
        next_state_commitment := Commitment.raw [], program_outputs := [], success := true }

/-- C1 witness: a successful password-authenticated `VerifyIdentity` for
`"bob"` — the guest run on the host-built witness reports exactly the
host's next commitment. -/
theorem C1_host_guest_commitment_witness :
    ((exBobWallet.build_commitment_metadata exVerifyBlob).execute cryptoX
        exVerifyCd).1.commitment = exC1Out.next_state_commitment :=
  (C1_host_guest_commitment cryptoX exBobWallet exVerifyCd 0 exVerifyBlob exVerifyAction "bob"
    (exBobWallet.actual_handle cryptoX exVerifyCd).1 exC1Out (by decide) (by decide)
    (by decide) (by decide) (by decide) (by rfl)).1
